import Mathlib

/-!
Verification development for the Boylston Chess Club tournament-director bot.

Shallow embedding of the Tournament State Reconciliation Engine:
* the dual-source orchestrator (`GetTournament`, `getTournamentViaApi`),
* the website parser (`parsePlayers`, `parsePairings`, `parsePlayerRef`,
  `fixupStandings`),
* the round-1 pairing predictor (`buildSections`, `buildPairingsInSection`),
* the rating estimator (`getRatingEstimate`, `specialRatingEstimate`,
  `GetRatingEstimate`).

Conventions of the embedding:
* Go `int` fields become `Int`; Go `float64` becomes `ℚ` (the float values
  flowing through these code paths are scores in halves and ratings, whose
  arithmetic here is exact); Go pointers (`*float64`, `*string`) become
  `Option`.
* The irrational primitives `math.Sqrt` and `math.Pow 10` are abstracted as
  function parameters (`sqrtFn`, `pow10`) so that every theorem about the
  estimator holds for every realization of them.
* Go string primitives (`strings.Fields`, `strconv.Atoi`, ...) are modelled
  for ASCII input, which covers all strings these code paths consume
  (except the literal '½' and '–' characters, handled explicitly).
* Network fetches are abstracted: functions are stated over the fetched /
  decoded values, mirroring the code from the point the response is in hand.
-/

namespace TDBot

/-! ### Go string primitives (modelled for ASCII input) -/

/-- Whitespace per Go `unicode.IsSpace`, restricted to ASCII. -/
def goIsSpace (c : Char) : Bool :=
  c = ' ' || c = '\t' || c = '\n' || c = '\r' || c = '\x0b' || c = '\x0c'

/-- Go `strings.TrimSpace` (ASCII whitespace). -/
def goTrimSpace (s : String) : String :=
  String.mk (((s.data.dropWhile goIsSpace).reverse.dropWhile goIsSpace).reverse)

/-- String concatenation over the character list (identical to `++`, which
the kernel cannot evaluate). -/
def strCat (a b : String) : String := String.mk (a.data ++ b.data)

/-- Splitting step of `goFields`: drop a whitespace run, take a token. -/
def goFieldsAux (fuel : Nat) (cs : List Char) : List (List Char) :=
  match fuel with
  | 0 => []
  | fuel + 1 =>
    let cs1 := cs.dropWhile goIsSpace
    match cs1 with
    | [] => []
    | _ :: _ =>
      cs1.takeWhile (fun c => ¬ goIsSpace c) ::
        goFieldsAux fuel (cs1.dropWhile (fun c => ¬ goIsSpace c))

/-- Go `strings.Fields`: the maximal whitespace-free tokens, in order. -/
def goFields (s : String) : List String :=
  (goFieldsAux (s.data.length + 1) s.data).map String.mk

/-- Go `strings.Replace(s, old, new, -1)` for nonempty `old` (the only use
here): replace every occurrence, left to right. -/
def goReplaceAllAux (fuel : Nat) (old new : List Char) (cs : List Char) : List Char :=
  match fuel with
  | 0 => cs
  | fuel + 1 =>
    if old.isPrefixOf cs ∧ old ≠ [] then
      new ++ goReplaceAllAux fuel old new (cs.drop old.length)
    else
      match cs with
      | [] => []
      | c :: t => c :: goReplaceAllAux fuel old new t

def goReplaceAll (s old new : String) : String :=
  String.mk (goReplaceAllAux (s.data.length + 1) old.data new.data s.data)

/-- Go `strings.ToLower`, restricted to ASCII. -/
def goToLower (s : String) : String :=
  String.mk (s.data.map Char.toLower)

/-- Value of a run of decimal digit characters. -/
def digitsToNat (cs : List Char) : Nat :=
  cs.foldl (fun a c => a * 10 + (c.toNat - 48)) 0

/-- Go `strconv.Atoi`: optional sign then one or more digits; `none` on
anything else (models the error return). -/
def atoi? (s : String) : Option Int :=
  match s.data with
  | [] => none
  | c :: rest =>
    let signed : Int × List Char :=
      if c = '+' then (1, rest) else if c = '-' then (-1, rest) else (1, c :: rest)
    if signed.2 ≠ [] ∧ signed.2.all (·.isDigit) then
      some (signed.1 * (digitsToNat signed.2 : Int))
    else none

/-- Go `strconv.ParseFloat` restricted to the plain decimal forms that occur
in this code path (optional sign, digits, optional fractional part); the
result is exact as a rational. `none` models the error return. -/
def parseFloat? (s : String) : Option ℚ :=
  match s.data with
  | [] => none
  | c :: rest =>
    let signed : Bool × List Char :=
      if c = '+' then (false, rest) else if c = '-' then (true, rest)
      else (false, c :: rest)
    let ip := signed.2.takeWhile (·.isDigit)
    let rest2 := signed.2.dropWhile (·.isDigit)
    -- the exact rational value sign*(ip + fp/10^|fp|), written over `mkRat`
    let val : List Char → List Char → ℚ := fun ipart fpart =>
      let denom : Nat := 10 ^ fpart.length
      let numer : Int := (digitsToNat ipart) * denom + digitsToNat fpart
      mkRat (if signed.1 then -numer else numer) denom
    match rest2 with
    | [] =>
      if ip ≠ [] then some (val ip []) else none
    | '.' :: fp =>
      if (ip ≠ [] ∨ fp ≠ []) ∧ fp.all (·.isDigit) then some (val ip fp)
      else none
    | _ => none

/-! Rational arithmetic: the standard `ℚ` operations are `@[irreducible]`,
so the embedding computes with the following definitionally-evaluable
equivalents; the `_eq` lemmas identify them with the standard operations. -/

/-- Addition `a + b` on `ℚ`, stated so the kernel can evaluate it. -/
def qadd (a b : ℚ) : ℚ := mkRat (a.num * b.den + b.num * a.den) (a.den * b.den)

/-- Subtraction `a - b` on `ℚ`, stated so the kernel can evaluate it. -/
def qsub (a b : ℚ) : ℚ := mkRat (a.num * b.den - b.num * a.den) (a.den * b.den)

/-- Multiplication `a * b` on `ℚ`, stated so the kernel can evaluate it. -/
def qmul (a b : ℚ) : ℚ := mkRat (a.num * b.num) (a.den * b.den)

/-- Division `a / b` on `ℚ`, stated so the kernel can evaluate it. -/
def qdiv (a b : ℚ) : ℚ := qmul a (Rat.divInt b.den b.num)

/-- Index of the first occurrence of a character (Go `strings.Index` with a
one-character needle, in characters rather than bytes). -/
def charIndexOf? (s : String) (c : Char) : Option Nat :=
  s.data.findIdx? (· = c)

/-- Index of the last occurrence of a character (Go `strings.LastIndex` with
a one-character needle). -/
def charLastIndexOf? (s : String) (c : Char) : Option Nat :=
  match (s.data.reverse.findIdx? (· = c)) with
  | some i => some (s.data.length - 1 - i)
  | none => none

/-- Go `strings.Trim`: strip any character of the cutset from both ends. -/
def goTrimCutset (s : String) (cutset : List Char) : String :=
  String.mk (((s.data.dropWhile (cutset.contains ·)).reverse.dropWhile
    (cutset.contains ·)).reverse)

/-- Go `strings.TrimPrefix`. -/
def goTrimPrefixStr (s pre : String) : String :=
  if pre.data.isPrefixOf s.data then String.mk (s.data.drop pre.data.length) else s

/-- Go `strings.Contains`. -/
def goContains (s sub : String) : Bool :=
  decide (List.IsInfix sub.data s.data)

/-! ### Canonical model (src/unnamed/part_015, Go structs `Player`,
`Pairing`, `Tournament`; `Source` from src/bcc/utils.go) -/

inductive Source where
  | api
  | website
deriving Repr, DecidableEq

/-- Go `Player` (part_015 lines 32-59). Fields not read or written by any
embedded code path (`middleName`, `nameSuffix`, `fideId`, ...) are kept so
the record mirrors the struct; Go zero values are the field defaults. -/
structure Player where
  firstName : String := ""
  middleName : String := ""
  lastName : String := ""
  nameTitle : String := ""
  nameSuffix : String := ""
  chessTitle : String := ""
  displayName : String := ""
  uscfId : Int := 0
  fideId : Int := 0
  fideCountry : String := ""
  primaryRating : Int := 0
  secondaryRating : Int := 0
  liveRating : Int := 0
  liveRatingProvo : Int := 0
  postEventRating : Int := 0
  postEventRatingProvo : Int := 0
  postEventBonusPoints : ℚ := 0
  ratingChange : Int := 0
  pairingNumber : Int := 0
  currentScore : ℚ := 0
  currentScoreAG : ℚ := 0
  gamesCompleted : Int := 0
  place : String := ""
  placeNumber : Int := 0
  emptyResult : Bool := false
deriving Repr, DecidableEq

/-- Go `Pairing` (part_015 lines 62-75). `Section` is a Lean keyword, so the
field is named `sectionName`. -/
structure Pairing where
  whitePlayer : Player := {}
  blackPlayer : Player := {}
  sectionName : String := ""
  roundNumber : Int := 0
  boardNumber : Int := 0
  isByePairing : Bool := false
  whitePoints : Option ℚ := none
  blackPoints : Option ℚ := none
  resultCode : String := ""
  whiteResult : Option String := none
  blackResult : Option String := none
  gameLink : String := ""
deriving Repr, DecidableEq

/-- Go `Tournament` (part_015 lines 23-29). -/
structure Tournament where
  players : List Player := []
  currentPairings : List Pairing := []
  isPredicted : Bool := false
  source : Source := Source.api
deriving Repr, DecidableEq

/-- Go `Entry` (src/bcc/event_detail.go lines 44-60); the date and
rating-type fields are never read by the embedded code paths. -/
structure Entry where
  firstName : String := ""
  lastName : String := ""
  uscfId : Int := 0
  chessTitle : String := ""
  womensChessTitle : String := ""
  uscfPeakRating : Int := 0
  sectionName : String := ""
  byeRequests : String := ""
  primaryRating : String := ""
  secondaryRating : String := ""
deriving Repr, DecidableEq

/-- Go `EventDetail`, restricted to the only field the embedded code reads. -/
structure EventDetail where
  entries : List Entry := []
deriving Repr, DecidableEq

abbrev Err := String

/-! ### internal.NormalizeName (src/internal/util.go lines 45-65) -/

/-- Go `NormalizeName`: Title-Case the first and last whitespace-separated
tokens; if they canonicalize identically, collapse to one. -/
def NormalizeName (s : String) : String :=
  match goFields s with
  | [] => ""
  | first :: restParts =>
    let last := if restParts ≠ [] then (first :: restParts).getLastD first else first
    let firstLower := goToLower first
    let lastLower := goToLower last
    -- fields are nonempty strings, so indexing rune 0 is safe; the Go code
    -- does fn[0]/ln[0] unconditionally
    match firstLower.data, lastLower.data with
    | fc :: fcs, lc :: lcs =>
      let firstTitle := String.mk (fc.toUpper :: fcs)
      let lastTitle := String.mk (lc.toUpper :: lcs)
      if firstTitle = lastTitle then firstTitle
      else strCat (strCat firstTitle " ") lastTitle
    | _, _ => ""

/-! ### Predictor support (src/bcc/utils.go / src/unnamed/part_014) -/

/-- Go `strRatingToInt` (part_014 lines 42-55): strip a "/NN" suffix, trim,
Atoi, defaulting to 0. -/
def strRatingToInt (rating : String) : Int :=
  if rating ≠ "" then
    let rating1 :=
      match charIndexOf? rating '/' with
      | some idx => String.mk (rating.data.take idx)
      | none => rating
    match atoi? (goTrimSpace rating1) with
    | some v => v
    | none => 0
  else 0

/-- Go `entryToPlayer` (part_014 lines 28-40). -/
def entryToPlayer (entry : Entry) : Player :=
  { firstName := entry.firstName
    lastName := entry.lastName
    nameTitle := entry.chessTitle
    displayName := strCat (strCat entry.firstName " ") entry.lastName
    uscfId := entry.uscfId
    primaryRating := strRatingToInt entry.primaryRating
    secondaryRating := strRatingToInt entry.secondaryRating }

/-- Go `SectionSorter.Less` (part_014 lines 66-96): "Open" first, then
"Championship", then U-number sections descending, then lexicographic. -/
def sectionLess (a b : String) : Bool :=
  if a = "Open" ∧ b ≠ "Open" then true
  else if b = "Open" ∧ a ≠ "Open" then false
  else if a = "Championship" ∧ b ≠ "Championship" then true
  else if b = "Championship" ∧ a ≠ "Championship" then false
  else
    let ua := "U".data.isPrefixOf a.data
    let ub := "U".data.isPrefixOf b.data
    let fallback := if ua ≠ ub then ua else decide (a < b)
    if ua ∧ ub then
      match atoi? (goTrimPrefixStr a "U"), atoi? (goTrimPrefixStr b "U") with
      | some ai, some bi => decide (bi < ai)
      | _, _ => fallback
    else fallback

/-! ### round1ByeRequested (src/bcc/round1pairings.go lines 149-175)

The Go code applies the regular expression
`(?i)\b(?:round|rnd|rounds|rnds)\b[\s:]*((?:\d+(?:\s*[,&;/]\s*\d+)*))`
to the lowercased request and collects the digit runs of the first match's
capture group. The scanner below is that specific regex hand-compiled:
scan left to right for a keyword delimited by word boundaries, skip
spaces/colons, then require a digit list with separators `, & ; /`. -/

/-- Word character for the regexp `\b` boundary: `[0-9A-Za-z_]`. -/
def isWordChar (c : Char) : Bool := c.isAlphanum || c = '_'

/-- Parse the regex tail `\d+(?:\s*[,&;/]\s*\d+)*` greedily, returning the
digit runs (the strings `\d+` would find in the capture group). -/
def parseNumListAux (fuel : Nat) (cs : List Char) (acc : List Nat) : List Nat :=
  match fuel with
  | 0 => acc.reverse
  | fuel + 1 =>
    let rest1 := cs.dropWhile goIsSpace
    match rest1 with
    | c :: rest2 =>
      if c = ',' || c = '&' || c = ';' || c = '/' then
        let rest3 := rest2.dropWhile goIsSpace
        let d2 := rest3.takeWhile (·.isDigit)
        if d2 ≠ [] then
          parseNumListAux fuel (rest3.dropWhile (·.isDigit)) (digitsToNat d2 :: acc)
        else acc.reverse
      else acc.reverse
    | [] => acc.reverse

def parseNumList? (cs : List Char) : Option (List Nat) :=
  let d := cs.takeWhile (·.isDigit)
  if d ≠ [] then
    some (parseNumListAux cs.length (cs.dropWhile (·.isDigit)) [digitsToNat d])
  else none

/-- Try the keyword alternation with its trailing `\b` at the head of `cs`;
on success return the remainder. Longer keywords are tried first, which is
equivalent to the regex thanks to the boundary requirement. -/
def tryByeKeyword (cs : List Char) : Option (List Char) :=
  let tryOne : String → Option (List Char) := fun kw =>
    if kw.data.isPrefixOf cs then
      let rest := cs.drop kw.data.length
      match rest with
      | [] => some []
      | c :: _ => if isWordChar c then none else some rest
    else none
  (tryOne "rounds").orElse fun _ =>
  (tryOne "rnds").orElse fun _ =>
  (tryOne "round").orElse fun _ =>
  tryOne "rnd"

/-- Scan for the first position where the whole regex matches; `prev` is the
character before the current position (for `\b`). -/
def scanByeList (fuel : Nat) (prev : Option Char) (cs : List Char) : Option (List Nat) :=
  match fuel with
  | 0 => none
  | fuel + 1 =>
    let here : Option (List Nat) :=
      if (match prev with | none => true | some p => ¬ isWordChar p) then
        match tryByeKeyword cs with
        | some rest => parseNumList? (rest.dropWhile (fun c => goIsSpace c || c = ':'))
        | none => none
      else none
    match here with
    | some nums => some nums
    | none =>
      match cs with
      | [] => none
      | c :: t => scanByeList fuel (some c) t

/-- Go `round1ByeRequested` (round1pairings.go lines 149-175). -/
def round1ByeRequested (req : String) : Bool :=
  let s := goTrimSpace req
  if s = "" then false
  else
    -- `^\d+$` branch
    if (s.data ≠ [] ∧ s.data.all (·.isDigit)) ∧ digitsToNat s.data = 1 then true
    else
      let sl := goToLower s
      match scanByeList (sl.data.length + 1) none sl.data with
      | some nums => nums.any (· = 1)
      | none => false

/-! ### Round-1 pairing predictor (src/bcc/round1pairings.go) -/

inductive Color where
  | white
  | black
deriving Repr, DecidableEq

/-- Go local struct `section` (round1pairings.go lines 14-17). -/
structure SectionRec where
  players : List Entry := []
  pairings : List Pairing := []
deriving Repr, DecidableEq

/-- Go `buildOnePairing` (round1pairings.go lines 122-134); the board-number
increment is threaded by the callers. -/
def buildOnePairing (w b : Entry) (boardNum : Int) : Pairing :=
  { whitePlayer := entryToPlayer w
    blackPlayer := entryToPlayer b
    sectionName := w.sectionName
    roundNumber := 1
    boardNumber := boardNum
    isByePairing := false }

/-- Go `buildOneBye` (round1pairings.go lines 136-147). -/
def buildOneBye (w : Entry) (points : ℚ) : Pairing :=
  { whitePlayer := entryToPlayer w
    sectionName := w.sectionName
    roundNumber := 1
    boardNumber := 0
    isByePairing := true
    whitePoints := some points }

/-- Rating-descending comparison used by the `sort.Slice` call in
`buildPairingsInSection` (lines 83-86). -/
def byRatingDesc (a b : Entry) : Prop :=
  strRatingToInt b.primaryRating ≤ strRatingToInt a.primaryRating

instance : DecidableRel byRatingDesc := fun x y =>
  inferInstanceAs (Decidable (strRatingToInt y.primaryRating ≤ strRatingToInt x.primaryRating))

instance : IsTotal Entry byRatingDesc :=
  ⟨fun a b => le_total (strRatingToInt b.primaryRating) (strRatingToInt a.primaryRating)⟩

instance : IsTrans Entry byRatingDesc :=
  ⟨fun _ _ _ hab hbc => le_trans hbc hab⟩

/-- The pairing loop of `buildPairingsInSection` (lines 97-113): repeatedly
pair `remainingPlayers[0]` against `remainingPlayers[n/2]`, alternating
which of the two gets white, removing both, threading the board number.
Structured with explicit fuel so the kernel can evaluate it; each iteration
removes two players, so fuel `remainingPlayers.length` (supplied by
`pairLoop`) is never exhausted. -/
def pairLoopF (fuel : Nat) (remainingPlayers : List Entry) (lastTopColor : Color)
    (boardNum : Int) : List Pairing × Int :=
  match fuel with
  | 0 => ([], boardNum)
  | fuel + 1 =>
    if 2 ≤ remainingPlayers.length then
      let n := remainingPlayers.length
      let top := remainingPlayers.getD 0 {}
      let opp := remainingPlayers.getD (n / 2) {}
      let rest := (remainingPlayers.eraseIdx (n / 2)).eraseIdx 0
      if lastTopColor = Color.black then
        let r := pairLoopF fuel rest Color.white (boardNum + 1)
        (buildOnePairing top opp boardNum :: r.1, r.2)
      else
        let r := pairLoopF fuel rest Color.black (boardNum + 1)
        (buildOnePairing opp top boardNum :: r.1, r.2)
    else ([], boardNum)

def pairLoop (remainingPlayers : List Entry) (lastTopColor : Color) (boardNum : Int) :
    List Pairing × Int :=
  pairLoopF remainingPlayers.length remainingPlayers lastTopColor boardNum

/-- The remaining pool of `buildPairingsInSection` (round1pairings.go lines
76-86): entrants that did not request a round-1 bye, sorted by reported
rating descending. The Go `sort.Slice` (unstable, deterministic for a
given input) is modelled by insertion sort with the same comparison. -/
def remainingPool (players : List Entry) : List Entry :=
  List.insertionSort byRatingDesc
    (players.filter (fun e => ¬ round1ByeRequested e.byeRequests))

/-- Go `buildPairingsInSection` (round1pairings.go lines 70-120). -/
def buildPairingsInSection (sec : SectionRec) (boardNum : Int) : SectionRec × Int :=
  let requestedByes := sec.players.filter (fun e => round1ByeRequested e.byeRequests)
  let sorted := remainingPool sec.players
  let oddAndPool : Option Entry × List Entry :=
    if sorted.length % 2 = 1 then (some (sorted.getLastD {}), sorted.dropLast)
    else (none, sorted)
  let games := pairLoop oddAndPool.2 Color.black boardNum
  let byes1 := requestedByes.map (fun p => buildOneBye p (mkRat 1 2))
  let byes2 := match oddAndPool.1 with
    | some e => [buildOneBye e 1]
    | none => []
  ({ sec with pairings := games.1 ++ byes1 ++ byes2 }, games.2)

/-- Group entries by `SectionName`, preserving first-encounter key order
(the Go code accumulates into a map; per-key contents are identical). -/
def groupBySection (entries : List Entry) : List (String × List Entry) :=
  entries.foldl (fun acc e =>
    if acc.any (fun kv => kv.1 = e.sectionName) then
      acc.map (fun kv => if kv.1 = e.sectionName then (kv.1, kv.2 ++ [e]) else kv)
    else acc ++ [(e.sectionName, [e])]) []

/-- One iteration of the section loop of `buildSections` (lines 61-65):
build the keyed section's pairings, threading the board counter. -/
def buildSectionsStep (groups : List (String × List Entry))
    (acc : List (String × SectionRec) × Int) (key : String) :
    List (String × SectionRec) × Int :=
  let players := match groups.find? (fun kv => kv.1 = key) with
    | some kv => kv.2
    | none => []
  let built := buildPairingsInSection { players := players } acc.2
  (acc.1 ++ [(key, built.1)], built.2)

/-- Go `buildSections` (round1pairings.go lines 37-68): group entries, sort the
section names with `SectionSorter`, then build each section's pairings in
that order threading one event-wide board counter starting at 1. The result
is the association list in `SectionSorter` order (the Go map holds the same
sections keyed by name). -/
def buildSections (entries : List Entry) : List (String × SectionRec) :=
  let groups := groupBySection entries
  let sectionNames :=
    List.insertionSort (fun a b => sectionLess a b = true) (groups.map (·.1))
  (sectionNames.foldl (buildSectionsStep groups) ([], 1)).1

/-- Go `predictRound1Pairings` (round1pairings.go lines 26-35). Go iterates the
section map in unspecified order; the embedding concatenates in
`SectionSorter` order, one of the admissible orders. -/
def predictRound1Pairings (entries : List Entry) : List Pairing :=
  (buildSections entries).flatMap (fun kv => kv.2.pairings)

/-- Go `eventDetailToTournament` (part_014 lines 14-25). -/
def eventDetailToTournament (eventDetail : EventDetail) : Tournament × Option Err :=
  ({ players := eventDetail.entries.map entryToPlayer
     currentPairings := predictRound1Pairings eventDetail.entries
     isPredicted := true }, none)

/-! ### Website parser (src/unnamed/part_015)

The parser sees a goquery document only through a fixed set of selections;
the document is modelled as the result of those selections:
* `parsePlayers` reads the rows of `table#members tbody tr` — a document
  whose entries table is absent yields the empty selection;
* `parsePairings` reads the `div#pairings h1, h2` headings in document
  order, each with its text, its `a`-link text, and the rows of the next
  `table` sibling (`none` when no table follows), plus all `h3` headings
  likewise.
A row is the list of its `td` cell texts. -/

/-- Go `parsePlayerRef` (part_015 lines 443-493): extract a `Player` reference
from a cell text like `"12 John Doe (2250 3.0)"`. -/
def parsePlayerRef (text : String) : Player :=
  if goToLower (goTrimSpace text) = "bye" then { displayName := "BYE" }
  else
    let fields := goFields text
    if fields.length > 1 then
      let pairingNumber := (atoi? (fields.getD 0 "")).getD 0
      let parenStart := charIndexOf? text '('
      let nameOnly := match parenStart with
        | some i => goTrimSpace (String.mk (text.data.take i))
        | none => text
      let displayName := NormalizeName nameOnly
      let nameWords := goFields displayName
      let firstName := nameWords.getD 0 ""
      let lastName := if nameWords.length > 1 then nameWords.getLastD "" else ""
      let parenEnd := charIndexOf? text ')'
      let ratingAndScore : Int × Option ℚ :=
        match parenStart, parenEnd with
        | some ps, some pe =>
          if ps < pe then
            let inside := goFields (String.mk ((text.data.take pe).drop (ps + 1)))
            let rating :=
              if inside.length ≥ 1 then
                if inside.getD 0 "" ≠ "unr." then (atoi? (inside.getD 0 "")).getD 0
                else 0
              else 0
            let score :=
              if inside.length ≥ 2 then parseFloat? (inside.getD 1 "") else none
            (rating, score)
          else (0, none)
        | _, _ => (0, none)
      match ratingAndScore.2 with
      | some score =>
        { pairingNumber := pairingNumber, displayName := displayName
          firstName := firstName, lastName := lastName
          primaryRating := ratingAndScore.1
          currentScore := score, currentScoreAG := score, emptyResult := true }
      | none =>
        { pairingNumber := pairingNumber, displayName := displayName
          firstName := firstName, lastName := lastName
          primaryRating := ratingAndScore.1 }
    else {}

/-- Body of the row callback in `parsePlayers` (part_015 lines 196-224);
`none` models the `return` that skips a row with fewer than 4 cells. -/
def parsePlayerRow? (cells : List String) : Option Player :=
  if cells.length < 4 then none
  else
    let num := (atoi? (goTrimSpace (cells.getD 0 ""))).getD 0
    let name := goTrimSpace (cells.getD 1 "")
    let rating := (atoi? (goTrimSpace (cells.getD 2 ""))).getD 0
    let uscfID := (atoi? (goTrimSpace (cells.getD 3 ""))).getD 0
    let displayName := NormalizeName name
    let parts := goFields displayName
    some { displayName := displayName
           pairingNumber := num
           primaryRating := rating
           uscfId := uscfID
           firstName := parts.getD 0 ""
           lastName := if parts.length > 1 then parts.getLastD "" else "" }

/-- The entries document as `parsePlayers` observes it. -/
structure EntriesDoc where
  /-- Cell texts of each row of `table#members tbody tr`; a document with no
  entries table yields no rows. -/
  memberRows : List (List String) := []
deriving Repr, DecidableEq

/-- Go `parsePlayers` (part_015 lines 194-227). Note: it returns `nil` error on
every input. -/
def parsePlayers (doc : EntriesDoc) (t : Tournament) : Tournament × Option Err :=
  ({ t with players := doc.memberRows.filterMap parsePlayerRow? }, none)

/-- Go `parsePairingRow` (part_015 lines 360-440); `none` models the
`ok=false` row skip. -/
def parsePairingRow? (cells : List String) (sectionName : String) : Option Pairing :=
  if cells.length < 5 then none
  else
    let boardText := goTrimSpace (cells.getD 0 "")
    if goToLower boardText = "bd" then none
    else
      let board := (atoi? boardText).getD 0
      let whiteRes := goTrimSpace (cells.getD 1 "")
      let whiteName := goTrimSpace (cells.getD 2 "")
      let blackRes := goTrimSpace (cells.getD 3 "")
      let blackName := goTrimSpace (cells.getD 4 "")
      let wp0 := parsePlayerRef whiteName
      let bp0 := parsePlayerRef blackName
      let wResPtr := if whiteRes ≠ "" then some whiteRes else none
      let bResPtr := if blackRes ≠ "" then some blackRes else none
      let wp := match wResPtr with
        | some r => match parseFloat? r with
          | some v => { wp0 with currentScoreAG := qadd wp0.currentScore v, emptyResult := false }
          | none => wp0
        | none => wp0
      let bp := match bResPtr with
        | some r => match parseFloat? r with
          | some v => { bp0 with currentScoreAG := qadd bp0.currentScore v, emptyResult := false }
          | none => bp0
        | none => bp0
      let pair : Pairing :=
        { sectionName := sectionName
          roundNumber := 0
          boardNumber := board
          whitePlayer := wp
          blackPlayer := bp
          resultCode := strCat (strCat whiteRes "-") blackRes
          whiteResult := wResPtr
          blackResult := bResPtr }
      if bp.displayName = "BYE" ∧ wp.displayName ≠ "BYE" then
        let pts : ℚ :=
          if goContains whiteRes "½" then mkRat 1 2
          else (parseFloat? whiteRes).getD 0
        some { pair with isByePairing := true, whitePoints := some pts }
      else if wp.displayName = "BYE" ∧ bp.displayName ≠ "BYE" then
        let pts : ℚ :=
          if goContains blackRes "½" then mkRat 1 2
          else (parseFloat? blackRes).getD 0
        some { pair with isByePairing := true, blackPoints := some pts }
      else some pair

/-- Go `parsePairingRows` (part_015 lines 351-357). -/
def parsePairingRows (rows : List (List String)) (sectionName : String)
    (t : Tournament) : Tournament :=
  { t with currentPairings :=
      t.currentPairings ++ rows.filterMap (parsePairingRow? · sectionName) }

/-- Go `getPlayersBySection` (src/bcc/standings.go lines 88-100): every
pairing's white player, plus its black player for non-bye pairings, grouped
by section (association list; the Go map holds the same per-key lists). -/
def getPlayersBySection (t : Tournament) : List (String × List Player) :=
  t.currentPairings.foldl (fun acc p =>
    let addOne := fun (m : List (String × List Player)) (v : Player) =>
      if m.any (fun kv => kv.1 = p.sectionName) then
        m.map (fun kv => if kv.1 = p.sectionName then (kv.1, kv.2 ++ [v]) else kv)
      else m ++ [(p.sectionName, [v])]
    let acc1 := addOne acc p.whitePlayer
    if ¬ p.isByePairing then addOne acc1 p.blackPlayer else acc1) []

/-- Score-descending comparison of the `sort.Slice` call in
`fixupStandings` (part_015 lines 332-334). -/
def byScoreDesc (a b : Player) : Prop := b.currentScoreAG ≤ a.currentScoreAG

instance : DecidableRel byScoreDesc := fun x y =>
  inferInstanceAs (Decidable (y.currentScoreAG ≤ x.currentScoreAG))

/-- Go `math.Round`: round half away from zero. -/
def mathRound (q : ℚ) : Int :=
  if q < 0 then -(Rat.floor (qadd (qsub 0 q) (mkRat 1 2)))
  else Rat.floor (qadd q (mkRat 1 2))

/-- Go `fixupStandings` (part_015 lines 306-348). Two remarks on fidelity:
* the per-section score sort (Go `sort.Slice`, used only to read the
  maximal `CurrentScoreAG` of the section via `players[0]`) is modelled by
  insertion sort with the same comparison;
* the Go loop `for idx, p := range players { p.PlaceNumber = idx + 1 }`
  (lines 338-340) assigns to `p`, a copy produced by `range` over
  `[]Player` values that were themselves copied out of the pairings by
  `getPlayersBySection`; nothing reachable from `t` changes, so the
  embedding has no corresponding update — only `maxScore` and the round
  numbers flow back into the tournament. -/
def fixupStandings (t : Tournament) : Tournament :=
  let haveAnyEmptyResult := t.currentPairings.any (fun p =>
    p.whitePlayer.emptyResult || (!p.isByePairing && p.blackPlayer.emptyResult))
  let pairings1 :=
    if haveAnyEmptyResult then
      t.currentPairings.map (fun p =>
        let p1 :=
          if ¬ p.isByePairing ∧ ¬ p.blackPlayer.emptyResult then
            { p with blackPlayer :=
                { p.blackPlayer with currentScoreAG := p.blackPlayer.currentScore } }
          else p
        if ¬ p1.whitePlayer.emptyResult then
          { p1 with whitePlayer :=
              { p1.whitePlayer with currentScoreAG := p1.whitePlayer.currentScore } }
        else p1)
    else t.currentPairings
  let t1 := { t with currentPairings := pairings1 }
  let secPlayers := getPlayersBySection t1
  let maxScore := secPlayers.foldl (fun m kv =>
    let sorted := List.insertionSort byScoreDesc kv.2
    if m < (sorted.headD {}).currentScoreAG then (sorted.headD {}).currentScoreAG
    else m) (0 : ℚ)
  let roundNumber := mathRound maxScore + 1
  { t1 with currentPairings := pairings1.map (fun p => { p with roundNumber := roundNumber }) }

/-- A `div#pairings h1` or `h2` heading as `parsePairings` observes it. -/
structure HeadNode where
  /-- Go `true` for `h1`, `false` for `h2` (`goquery.NodeName`). -/
  isH1 : Bool := true
  /-- Go `s.Text()` -/
  text : String := ""
  /-- Go `s.Find("a").Text()` -/
  linkText : String := ""
  /-- Cell texts of the rows of the next `table` sibling (skipping non-table
  siblings); `none` when no table sibling exists. -/
  tableRows : Option (List (List String)) := none
deriving Repr, DecidableEq

/-- An `h3` heading as the malformed-section pass observes it. -/
structure H3Node where
  text : String := ""
  tableRows : Option (List (List String)) := none
deriving Repr, DecidableEq

/-- The pairings document as `parsePairings` observes it. -/
structure PairingsDoc where
  /-- Go `div#pairings h1, div#pairings h2` in document order; a document with
  no pairings tables yields no headings (or headings with no table). -/
  headings : List HeadNode := []
  /-- all `h3` elements in document order -/
  h3s : List H3Node := []
deriving Repr, DecidableEq

/-- Section name derived from an h1/h2 heading (part_015 lines 245-259). -/
def sectionNameOfHead (n : HeadNode) : String :=
  if n.isH1 then
    let s0 := if goTrimSpace n.linkText ≠ "" then goTrimSpace n.linkText
      else goTrimSpace n.text
    goTrimCutset (goReplaceAll s0 "Pairings" "") [' ', '–', ':', '\t']
  else goTrimSpace (goReplaceAll n.text "Section" "")

/-- Go `parsePairings` (part_015 lines 232-303): h1/h2 pass (skipping the h1
when sub-sections exist, and headings with no following table), then the
malformed-h3 pass, then `fixupStandings`. Note: it returns `nil` error on
every input. -/
def parsePairings (doc : PairingsDoc) (t : Tournament) : Tournament × Option Err :=
  let hasSubSections := doc.headings.any (fun n => ¬ n.isH1)
  let t1 := doc.headings.foldl (fun acc n =>
    if n.isH1 ∧ hasSubSections then acc
    else match n.tableRows with
      | none => acc
      | some rows => parsePairingRows rows (sectionNameOfHead n) acc)
    { t with currentPairings := [] }
  let t2 := doc.h3s.foldl (fun acc n =>
    let text := goTrimSpace n.text
    if ¬ ("Pairings".data.isPrefixOf text.data) then acc
    else
      let sectionName := match charLastIndexOf? text ':' with
        | some i =>
          if i + 1 < text.data.length then
            goTrimSpace (String.mk (text.data.drop (i + 1)))
          else text
        | none => text
      match n.tableRows with
      | none => acc
      | some rows => parsePairingRows rows sectionName acc) t1
  (fixupStandings t2, none)

/-! ### Dual-source orchestrator (src/unnamed/part_015 lines 77-148) -/

/-- The outcome of the HTTP half of `getTournamentViaApi`, up to the point
the code inspects it: request construction, transport, HTTP status (with
the `GetEventDetail` fallback result), JSON decoding. -/
inductive ApiFetchOutcome where
  /-- Go `http.NewRequest` failed -/
  | newError (e : Err)
  /-- Go `http.DefaultClient.Do` failed -/
  | doError (e : Err)
  /-- non-200 status; `detail` is the `GetEventDetail` result (`none` = it
  errored) -/
  | non200 (status : Int) (detail : Option EventDetail)
  /-- 200 but the JSON decode failed -/
  | decodeError (e : Err)
  /-- 200 and the body decoded to these players/pairings -/
  | decoded (t : Tournament)
deriving Repr

/-- Go `getTournamentViaApi` (part_015 lines 105-148) from the fetch outcome
on. -/
def getTournamentViaApi : ApiFetchOutcome → Tournament × Option Err
  | ApiFetchOutcome.newError e =>
    ({}, some ("unable to fetch bcc tournament (new): " ++ e))
  | ApiFetchOutcome.doError e =>
    ({}, some ("unable to fetch bcc tournament (do): " ++ e))
  | ApiFetchOutcome.non200 _status detail =>
    match detail with
    | some d => eventDetailToTournament d
    | none => ({}, some "unable to fetch: http status")
  | ApiFetchOutcome.decodeError e =>
    ({}, some ("unable to parse bcc tournament: " ++ e))
  | ApiFetchOutcome.decoded t0 =>
    let tourney := { t0 with source := Source.api }
    if tourney.currentPairings.length = 0 ∧ tourney.players.length = 0 then
      ({}, some "bcc tournament API returned an empty response")
    else (tourney, none)

/-- Go `GetTournament` (part_015 lines 77-101) from the two concurrent fetch
results on: prefer the api response; fall back to the website result when
only the api leg failed; report the api error when both failed. -/
def GetTournament (apiResult webResult : Tournament × Option Err) :
    Tournament × Option Err :=
  match apiResult.2 with
  | some e =>
    match webResult.2 with
    | some _ => (apiResult.1, some e)
    | none => (webResult.1, none)
  | none => (apiResult.1, none)

/-! ### Rating estimator (src/uschess/player_report.go)

`math.Sqrt` and `math.Pow 10 ·` are abstracted as the parameters `sqrtFn`
and `pow10`; every theorem below holds for every realization of them. The
decimal literals of the source are written as exact rationals
(`0.662 = mkRat 662 1000`, ...). -/

/-- Go `expectedScore` (player_report.go lines 188-192). -/
def expectedScore (pow10 : ℚ → ℚ) (myRating oppRating : ℚ) : ℚ :=
  qdiv 1 (qadd (pow10 (qdiv (qsub oppRating myRating) 400)) 1)

/-- Go `provisionalWinningExpectancy` (lines 196-204). -/
def provisionalWinningExpectancy (R Ri : ℚ) : ℚ :=
  if R ≤ qsub Ri 400 then 0
  else if qadd Ri 400 ≤ R then 1
  else qadd (mkRat 1 2) (qdiv (qsub R Ri) 800)

/-- Go `effectiveGames` (lines 207-221): N₀, the effective number of prior
games. `math.Pow (2569-r) 2` is an exact square. -/
def effectiveGames (sqrtFn : ℚ → ℚ) (myOldRating : ℚ) (priorGames : Int) : ℚ :=
  let nStar : ℚ :=
    if myOldRating ≤ 2355 then
      qdiv 50 (sqrtFn (qadd (mkRat 662 1000)
        (qmul (mkRat 739 100000000)
          (qmul (qsub 2569 myOldRating) (qsub 2569 myOldRating)))))
    else 50
  if (mkRat priorGames 1) < nStar then mkRat priorGames 1 else nStar

/-- Go `KFactor` (lines 227-239). -/
def KFactor (myOldRating N0 : ℚ) (m : Int) (dualRatedOTBR : Bool) : ℚ :=
  let denom := qadd N0 (mkRat m 1)
  if denom ≤ 0 then 0
  else if dualRatedOTBR ∧ 2200 < myOldRating then
    if 2500 ≤ myOldRating then qdiv 200 denom
    else qdiv (qmul 800 (qsub (mkRat 65 10) (qmul (mkRat 25 10000) myOldRating))) denom
  else qdiv 800 denom

/-- Go `math.Abs` (on the non-NaN rationals in play). -/
def qAbs (q : ℚ) : ℚ := if q < 0 then qsub 0 q else q

/-- Go `math.Max` (on the non-NaN rationals in play). -/
def qMax (a b : ℚ) : ℚ := if a < b then b else a

/-- The widening loop `for i := 0; i < 10 && fl > 0; i++ { lo -= 1000 ... }`
of `specialRatingEstimate` (lines 282-285), fuel 10. -/
def widenLoF (fuel : Nat) (f : ℚ → ℚ) (lo : ℚ) : ℚ :=
  match fuel with
  | 0 => lo
  | fuel + 1 => if 0 < f lo then widenLoF fuel f (qsub lo 1000) else lo

/-- The widening loop for the upper bound (lines 286-289), fuel 10. -/
def widenHiF (fuel : Nat) (f : ℚ → ℚ) (hi : ℚ) : ℚ :=
  match fuel with
  | 0 => hi
  | fuel + 1 => if f hi < 0 then widenHiF fuel f (qadd hi 1000) else hi

/-- The bisection loop of `specialRatingEstimate` (lines 291-303), fuel 200:
stop when the bracket is at most `1e-9` wide; inside, accept a midpoint
whose residual is within `1e-7`, else shrink the bracket. -/
def bisectF (fuel : Nat) (f : ℚ → ℚ) (lo hi : ℚ) : ℚ × ℚ :=
  match fuel with
  | 0 => (lo, hi)
  | fuel + 1 =>
    if mkRat 1 1000000000 < qsub hi lo then
      let mid := qdiv (qadd lo hi) 2
      let fm := f mid
      if qAbs fm ≤ mkRat 1 10000000 then (mid, mid)
      else if fm < 0 then bisectF fuel f mid hi
      else bisectF fuel f lo mid
    else (lo, hi)

/-- The final clamp of `specialRatingEstimate` (lines 305-311):
`if out < 100 { out = 100 }; if out > 2700 { out = 2700 }`. -/
def clampSpecial (out : ℚ) : ℚ :=
  let o1 := if out < 100 then 100 else out
  if 2700 < o1 then 2700 else o1

/-- Go `specialRatingEstimate` (lines 247-313): solve
`N0·PWe(R,R00) + Σ PWe(R,Ri) = score + N0/2` by bisection, then clamp to
`[100, 2700]`. -/
def specialRatingEstimate (myOldRating N0 score : ℚ)
    (opponentRatings : List ℚ) : ℚ :=
  let R00 := myOldRating
  let S0 := qadd score (qdiv N0 2)
  let minR := opponentRatings.foldl (fun m r => if r < m then r else m) R00
  let maxR := opponentRatings.foldl (fun m r => if m < r then r else m) R00
  let lo0 := qsub minR 1000
  let hi0 := qadd maxR 1000
  let f : ℚ → ℚ := fun R =>
    qsub (opponentRatings.foldl (fun sum r => qadd sum (provisionalWinningExpectancy R r))
      (qmul N0 (provisionalWinningExpectancy R R00))) S0
  let lo1 := widenLoF 10 f lo0
  let hi1 := widenHiF 10 f hi0
  let bracket := bisectF 200 f lo1 hi1
  clampSpecial (qdiv (qadd bracket.1 bracket.2) 2)

/-- Go `calcBonus` (lines 353-369), with the 2025 bonus threshold `B = 10`. -/
def calcBonus (sqrtFn : ℚ → ℚ) (numGames : Int) (delta : ℚ) : ℚ :=
  if 3 ≤ numGames then
    let m0 := if numGames < 4 then 4 else numGames
    qMax 0 (qsub delta (qmul 10 (sqrtFn (mkRat m0 1))))
  else 0

/-- Go `getRatingEstimate` (lines 317-351): the pure estimator. Note it
returns a `nil` error on every path. -/
def getRatingEstimate (sqrtFn pow10 : ℚ → ℚ) (myOldRating : ℚ) (priorGames : Int)
    (score : ℚ) (opponentRatings : List ℚ) (dualRatedOTBR : Bool) : ℚ × Option Err :=
  let numGames := opponentRatings.length
  if numGames = 0 then (myOldRating, none)
  else
    let N0 := effectiveGames sqrtFn myOldRating priorGames
    if priorGames ≤ 8 then
      (specialRatingEstimate myOldRating N0 score opponentRatings, none)
    else
      let expected := opponentRatings.foldl
        (fun acc r => qadd acc (expectedScore pow10 myOldRating r)) 0
      let K := KFactor myOldRating N0 (numGames : Int) dualRatedOTBR
      let delta := qmul K (qsub score expected)
      let bonus := calcBonus sqrtFn (numGames : Int) delta
      (qadd (qadd myOldRating delta) bonus, none)

/-- Go `uschess.Player` (player_report.go lines 676-683), restricted to the
fields the estimator reads. -/
structure USPlayer where
  memberId : Int := 0
  regRating : String := ""
  totalEvents : Int := 0
deriving Repr, DecidableEq

/-- Go `isUnrated` (lines 371-373). -/
def isUnrated (p : USPlayer) : Bool :=
  goTrimSpace p.regRating = "<unrated>"

/-- Go `parseRatingWithProvisionalGames` (lines 470-493): split at the first
`P` into base rating and provisional game count; `none` models the error
return. On success returns `(base, provGames, hasProv)`. -/
def parseRatingWithProvisionalGames (s : String) : Option (Int × Int × Bool) :=
  match charIndexOf? s 'P' with
  | some i =>
    let baseStr := goTrimSpace (String.mk (s.data.take i))
    let gamesStr := goTrimSpace (String.mk (s.data.drop (i + 1)))
    if baseStr = "" ∨ gamesStr = "" then none
    else
      match atoi? baseStr with
      | none => none
      | some base =>
        match atoi? gamesStr with
        | none => none
        | some provGames => some (base, provGames, true)
  | none =>
    match atoi? s with
    | some base => some (base, 0, false)
    | none => none

/-- Go `regRatingFloat` (lines 375-381). -/
def regRatingFloat (p : USPlayer) : Option ℚ :=
  (parseRatingWithProvisionalGames p.regRating).map (fun t => mkRat t.1 1)

/-- Go `estimateGameCount` (lines 460-468). -/
def estimateGameCount (player : USPlayer) : Int :=
  match parseRatingWithProvisionalGames player.regRating with
  | some (_, provGames, true) => provGames
  | _ => player.totalEvents * 4

/-- The opponent-rating loop of `GetRatingEstimate` (lines 446-453):
parse each opponent's reg rating in order, stopping at the first failure. -/
def regRatingsOf : List USPlayer → Option (List ℚ)
  | [] => some []
  | o :: rest =>
    match regRatingFloat o with
    | none => none
    | some r =>
      match regRatingsOf rest with
      | none => none
      | some rs => some (r :: rs)

/-- Go `GetRatingEstimate` (lines 404-458) from the fetched player records on:
the errgroup of `fetchOneRatedPlayer` calls fails iff the player or any
opponent is unrated; then the reg ratings are parsed (first failure wins)
and the pure estimator runs with `dualRatedOTBR = false`. On error the
numeric result is 0. -/
def GetRatingEstimate (sqrtFn pow10 : ℚ → ℚ) (player : USPlayer)
    (opponents : List USPlayer) (score : ℚ) : ℚ × Option Err :=
  if isUnrated player ∨ opponents.any (fun o => isUnrated o) then
    (0, some "player is unrated")
  else
    match regRatingFloat player with
    | none => (0, some "parsing reg rating")
    | some myOld =>
      match regRatingsOf opponents with
      | none => (0, some "parsing reg rating")
      | some opponentRatings =>
        getRatingEstimate sqrtFn pow10 myOld (estimateGameCount player) score
          opponentRatings false

/-! ### Auxiliary definitions for the statements and fixtures -/

/-- The color alternation step of the pairing loop. -/
def flipColor : Color → Color
  | Color.black => Color.white
  | Color.white => Color.black

/-- Closed form of the pairing loop: one pairing per (top, opponent) pair,
the top-half side taking white first, alternating, boards consecutive. -/
def mkPairings : List (Entry × Entry) → Color → Int → List Pairing
  | [], _, _ => []
  | (t, o) :: rest, c, bn =>
    (if c = Color.black then buildOnePairing t o bn else buildOnePairing o t bn) ::
      mkPairings rest (flipColor c) (bn + 1)

/-- The color reached after `i` alternation steps from `c`. -/
def colorAt (c : Color) (i : Nat) : Color :=
  if i % 2 = 0 then c else flipColor c

/-- The non-bye pairings of a built section list, concatenated in order. -/
def allGames (l : List (String × SectionRec)) : List Pairing :=
  l.flatMap (fun kv => kv.2.pairings.filter (fun p => !p.isByePairing))

/-- Four-entry one-section fixture rated 2000/1800/1600/1400, no bye
requests. -/
def predE1 : Entry :=
  { firstName := "Alice", lastName := "Anders", sectionName := "Open", primaryRating := "2000" }

def predE2 : Entry :=
  { firstName := "Bela", lastName := "Bartok", sectionName := "Open", primaryRating := "1800" }

def predE3 : Entry :=
  { firstName := "Carl", lastName := "Custer", sectionName := "Open", primaryRating := "1600" }

def predE4 : Entry :=
  { firstName := "Dana", lastName := "Duse", sectionName := "Open", primaryRating := "1400" }

def predE5 : Entry :=
  { firstName := "Erik", lastName := "Erben", sectionName := "Open", primaryRating := "1200" }

/-- An entrant who requested a round-1 bye. -/
def predEBye : Entry :=
  { firstName := "Fern", lastName := "Frost", sectionName := "Open", primaryRating := "1000",
    byeRequests := "1" }

def predEntries4 : List Entry := [predE1, predE2, predE3, predE4]

/-- The even 4-player section fixture. -/
def predSection4 : SectionRec := { players := predEntries4 }

/-- A section fixture with five remaining players (odd) plus one requested
bye. -/
def predSectionOdd : SectionRec :=
  { players := [predE5, predE1, predE2, predEBye, predE3, predE4] }

/-- A nonempty website tournament used to instantiate fallback theorems. -/
def tWebFixture : Tournament :=
  { players := [{ displayName := "Web Player" }] }

/-- A two-player pairing with a recorded result on both sides (post-round
scores 1 and 0), used to evaluate `fixupStandings`. -/
def fixupEx : Tournament :=
  { currentPairings := [
      { sectionName := "Open"
        whitePlayer := { displayName := "Alice A", currentScore := 0, currentScoreAG := 1 }
        blackPlayer := { displayName := "Bob B", currentScore := 0, currentScoreAG := 0 } } ] }

/-! ## Theorems -/

set_option maxRecDepth 100000

/-! ### Identification of the evaluable string/rational helpers with the
standard library operations -/

theorem strCat_eq (a b : String) : strCat a b = a ++ b := by
  cases a
  cases b
  rfl

@[simp] theorem qadd_eq (a b : ℚ) : qadd a b = a + b := (Rat.add_def' a b).symm

@[simp] theorem qsub_eq (a b : ℚ) : qsub a b = a - b := (Rat.sub_def' a b).symm

@[simp] theorem qmul_eq (a b : ℚ) : qmul a b = a * b := by
  rw [qmul, Rat.mul_def, Rat.normalize_eq_mkRat]

@[simp] theorem qdiv_eq (a b : ℚ) : qdiv a b = a / b := by
  rw [qdiv, Rat.div_def, Rat.inv_def, qmul_eq]

/-! ### The pairing loop in closed form

`pairLoopF` consumes `pool[0]` and `pool[n/2]` per step; on an even pool
this is exactly `zip (pool.take (n/2)) (pool.drop (n/2))` with colors
alternating from `lastTopColor` and consecutive board numbers, which
`mkPairings` spells out. -/

theorem pairLoopF_eq (fuel : Nat) : ∀ (pool : List Entry) (c : Color) (bn : Int),
    pool.length ≤ fuel → pool.length % 2 = 0 →
    pairLoopF fuel pool c bn =
      (mkPairings ((pool.take (pool.length / 2)).zip (pool.drop (pool.length / 2))) c bn,
       bn + ((pool.length / 2 : Nat) : Int)) := by
  induction fuel with
  | zero =>
    intro pool c bn hf _he
    have hp : pool = [] := List.eq_nil_of_length_eq_zero (Nat.le_zero.mp hf)
    subst hp
    simp [pairLoopF, mkPairings]
  | succ fuel ih =>
    intro pool c bn hf he
    by_cases h2 : 2 ≤ pool.length
    · obtain ⟨a, rest, rfl⟩ : ∃ a rest, pool = a :: rest := by
        cases pool with
        | nil => simp at h2
        | cons a rest => exact ⟨a, rest, rfl⟩
      have hrl : 1 ≤ rest.length := by simp at h2; omega
      obtain ⟨k', hk⟩ : ∃ k', (a :: rest).length / 2 = k' + 1 := by
        refine ⟨(a :: rest).length / 2 - 1, ?_⟩
        have : 1 ≤ (a :: rest).length / 2 := by simp; omega
        omega
      have hkr : k' < rest.length := by
        simp only [List.length_cons] at hk he ⊢
        omega
      -- reduce the loop body one step
      have hstep : ((a :: rest).eraseIdx ((a :: rest).length / 2)).eraseIdx 0 =
          rest.eraseIdx k' := by
        rw [hk, List.eraseIdx_cons_succ, List.eraseIdx_cons_zero]
      have hlen' : (rest.eraseIdx k').length = rest.length - 1 :=
        List.length_eraseIdx_of_lt hkr
      have hfuel' : (rest.eraseIdx k').length ≤ fuel := by
        simp only [List.length_cons] at hf
        omega
      have heven' : (rest.eraseIdx k').length % 2 = 0 := by
        simp only [List.length_cons] at he
        omega
      have hhalf' : (rest.eraseIdx k').length / 2 = k' := by
        simp only [List.length_cons] at hk he
        omega
      -- the zipped halves of the erased list are the halves of `rest`
      have htake : (rest.eraseIdx k').take k' = rest.take k' := by
        rw [List.eraseIdx_eq_take_drop_succ,
          List.take_append_of_le_length (by simp [List.length_take]; omega),
          List.take_take]
        simp
      have hdrop : (rest.eraseIdx k').drop k' = rest.drop (k' + 1) := by
        rw [List.eraseIdx_eq_take_drop_succ,
          List.drop_append_of_le_length (by simp [List.length_take]; omega)]
        have : (rest.take k').drop k' = [] := by
          apply List.drop_eq_nil_of_le
          simp [List.length_take]
        rw [this, List.nil_append]
      have hgetD : rest.getD k' ({} : Entry) = rest.get ⟨k', hkr⟩ := by
        simp [List.getD, List.getElem?_eq_getElem hkr]
      have hdropc : rest.drop k' = rest.get ⟨k', hkr⟩ :: rest.drop (k' + 1) := by
        simpa using List.drop_eq_getElem_cons hkr
      have hzip : ((a :: rest).take (k' + 1)).zip ((a :: rest).drop (k' + 1)) =
          (a, rest.get ⟨k', hkr⟩) ::
            ((rest.eraseIdx k').take k').zip ((rest.eraseIdx k').drop k') := by
        rw [htake, hdrop, List.take_succ_cons, List.drop_succ_cons, hdropc,
          List.zip_cons_cons]
      have hboard : (bn + 1) + ((k' : Nat) : Int) = bn + (((k' + 1 : Nat)) : Int) := by
        push_cast
        ring
      have hrec := ih (rest.eraseIdx k') (flipColor c) (bn + 1) hfuel' heven'
      rw [hhalf'] at hrec
      cases c with
      | black =>
        simp only [pairLoopF, if_pos h2, if_pos rfl, hstep, flipColor] at hrec ⊢
        rw [hrec, hk, hzip]
        simp only [mkPairings, if_pos rfl, flipColor]
        refine Prod.ext ?_ ?_
        · simp [List.getD_cons_succ, List.getD_cons_zero, List.getElem?_eq_getElem hkr]
        · simpa using hboard
      | white =>
        have hcw : ¬ (Color.white = Color.black) := by
          simp
        simp only [pairLoopF, if_pos h2, if_neg hcw, hstep, flipColor] at hrec ⊢
        rw [hrec, hk, hzip]
        simp only [mkPairings, if_neg hcw, flipColor]
        refine Prod.ext ?_ ?_
        · simp [List.getD_cons_succ, List.getD_cons_zero, List.getElem?_eq_getElem hkr]
        · simpa using hboard
    · have h0 : pool.length = 0 := by omega
      have hp : pool = [] := List.eq_nil_of_length_eq_zero h0
      subst hp
      simp [pairLoopF, mkPairings]

theorem pairLoop_eq (pool : List Entry) (c : Color) (bn : Int)
    (he : pool.length % 2 = 0) :
    pairLoop pool c bn =
      (mkPairings ((pool.take (pool.length / 2)).zip (pool.drop (pool.length / 2))) c bn,
       bn + ((pool.length / 2 : Nat) : Int)) :=
  pairLoopF_eq pool.length pool c bn le_rfl he

/-- C1: `GetTournament` applies the fallback policy: a successful structured
fetch wins unconditionally; a failed structured fetch with a successful
website fetch returns the website tournament with nil error; two failures
return the structured-source error. -/
theorem getTournament_fallback_policy (tApi tWeb : Tournament)
    (apiErr webErr : Option Err) :
    (apiErr = none → GetTournament (tApi, apiErr) (tWeb, webErr) = (tApi, none)) ∧
    (apiErr ≠ none → webErr = none →
      GetTournament (tApi, apiErr) (tWeb, webErr) = (tWeb, none)) ∧
    (apiErr ≠ none → webErr ≠ none →
      (GetTournament (tApi, apiErr) (tWeb, webErr)).2 = apiErr) := by
  refine ⟨fun h1 => ?_, fun h1 h2 => ?_, fun h1 h2 => ?_⟩ <;>
    cases apiErr <;> cases webErr <;> simp_all [GetTournament]

theorem getTournament_fallback_policy_witness :
    (GetTournament ({}, none) (tWebFixture, some "weberr") = ({}, none)) ∧
    (GetTournament ({}, some "apierr") (tWebFixture, none) = (tWebFixture, none)) ∧
    ((GetTournament ({}, some "apierr") (tWebFixture, some "weberr")).2 = some "apierr") :=
  ⟨(getTournament_fallback_policy {} tWebFixture none (some "weberr")).1 rfl,
   (getTournament_fallback_policy {} tWebFixture (some "apierr") none).2.1
     (by decide) rfl,
   (getTournament_fallback_policy {} tWebFixture (some "apierr") (some "weberr")).2.2
     (by decide) (by decide)⟩

/-- C10: a 200 response that decodes to a tournament with no players and no
current pairings makes the structured fetch report an error, so the
orchestrator falls back to the website result. -/
theorem api_empty_falls_back_to_web (t0 tWeb : Tournament)
    (hp : t0.players = []) (hc : t0.currentPairings = []) :
    (getTournamentViaApi (ApiFetchOutcome.decoded t0)).2 ≠ none ∧
    GetTournament (getTournamentViaApi (ApiFetchOutcome.decoded t0)) (tWeb, none) =
      (tWeb, none) := by
  have h : getTournamentViaApi (ApiFetchOutcome.decoded t0) =
      ({}, some "bcc tournament API returned an empty response") := by
    simp [getTournamentViaApi, hp, hc]
  rw [h]
  exact ⟨by simp, rfl⟩

theorem api_empty_falls_back_to_web_witness :
    (getTournamentViaApi (ApiFetchOutcome.decoded {})).2 ≠ none ∧
    GetTournament (getTournamentViaApi (ApiFetchOutcome.decoded {}))
      (tWebFixture, none) = (tWebFixture, none) :=
  api_empty_falls_back_to_web {} tWebFixture rfl rfl

/-- C5 (code-bug evaluation): on a pairing whose players have post-round
scores 1 and 0, `fixupStandings` does set every pairing's round number to
`round(maxSectionScore) + 1 = 2`, but no player's `PlaceNumber` is updated
(both remain 0, where the claimed rank derivation would give 1 and 2): the
Go loop `for idx, p := range players { p.PlaceNumber = idx + 1 }` writes to
a range-loop copy of a copy, so the computed ranks never reach the
tournament. -/
theorem fixupStandings_rank_noop_eval :
    ((fixupStandings fixupEx).currentPairings.map (fun p => p.roundNumber) = [2]) ∧
    ((fixupStandings fixupEx).currentPairings.map
      (fun p => (p.whitePlayer.placeNumber, p.blackPlayer.placeNumber)) = [(0, 0)]) := by
  decide

/-- C7 (code-bug evaluation): `parsePlayerRef "12 John Doe (2250 3.0)"`
recovers rating 2250, score 3.0 and pairing number 12, and `"BYE"` yields
the bare bye marker, but the parsed name is `"12 Doe"` — not `"John Doe"`:
the leading pairing number is never stripped from the name text, so
`NormalizeName` title-cases `"12"` as the first name and drops `"John"` as
a middle token. An `"unr."` rating field leaves the rating at the unrated
zero value. -/
theorem parsePlayerRef_eval :
    (parsePlayerRef "12 John Doe (2250 3.0)").displayName = "12 Doe" ∧
    (parsePlayerRef "12 John Doe (2250 3.0)").firstName = "12" ∧
    (parsePlayerRef "12 John Doe (2250 3.0)").lastName = "Doe" ∧
    (parsePlayerRef "12 John Doe (2250 3.0)").primaryRating = 2250 ∧
    (parsePlayerRef "12 John Doe (2250 3.0)").currentScore = 3 ∧
    (parsePlayerRef "12 John Doe (2250 3.0)").pairingNumber = 12 ∧
    parsePlayerRef "BYE" = { displayName := "BYE" } ∧
    (parsePlayerRef "7 Jane Roe (unr. 1.0)").primaryRating = 0 := by
  decide

/-! ### Properties of the closed-form pairing list -/

theorem flipColor_flipColor (c : Color) : flipColor (flipColor c) = c := by
  cases c <;> rfl

theorem colorAt_flip (c : Color) (i : Nat) :
    colorAt (flipColor c) i = colorAt c (i + 1) := by
  rcases Nat.mod_two_eq_zero_or_one i with h | h
  · have h1 : (i + 1) % 2 = 1 := by omega
    simp [colorAt, h, h1]
  · have h1 : (i + 1) % 2 = 0 := by omega
    simp [colorAt, h, h1, flipColor_flipColor]

theorem mkPairings_length (ps : List (Entry × Entry)) (c : Color) (bn : Int) :
    (mkPairings ps c bn).length = ps.length := by
  induction ps generalizing c bn with
  | nil => rfl
  | cons p rest ih =>
    cases p
    simp [mkPairings, ih]

theorem mkPairings_getD (ps : List (Entry × Entry)) (c : Color) (bn : Int) :
    ∀ i, i < ps.length →
      (mkPairings ps c bn).getD i {} =
        (if colorAt c i = Color.black
         then buildOnePairing (ps.getD i ({}, {})).1 (ps.getD i ({}, {})).2 (bn + i)
         else buildOnePairing (ps.getD i ({}, {})).2 (ps.getD i ({}, {})).1 (bn + i)) := by
  induction ps generalizing c bn with
  | nil =>
    intro i h
    simp at h
  | cons p rest ih =>
    intro i h
    cases p with
    | mk t o =>
      cases i with
      | zero =>
        simp [mkPairings, colorAt]
      | succ i =>
        have hi : i < rest.length := by simpa using h
        have hrec := ih (flipColor c) (bn + 1) i hi
        simp only [mkPairings, List.getD_cons_succ]
        rw [hrec, colorAt_flip]
        have harith : bn + 1 + (i : Int) = bn + ((i + 1 : Nat) : Int) := by
          push_cast
          ring
        rw [harith]

theorem mkPairings_boards (ps : List (Entry × Entry)) (c : Color) (bn : Int) :
    (mkPairings ps c bn).map (fun p => p.boardNumber) =
      (List.range ps.length).map (fun i : Nat => bn + (i : Int)) := by
  induction ps generalizing c bn with
  | nil => rfl
  | cons p rest ih =>
    cases p with
    | mk t o =>
      have hhead : (if c = Color.black then buildOnePairing t o bn
          else buildOnePairing o t bn).boardNumber = bn := by
        split_ifs <;> rfl
      simp only [mkPairings, List.map_cons, hhead, ih, List.length_cons,
        List.range_succ_eq_map, List.map_map]
      congr 1
      · simp
      · apply List.map_congr_left
        intro i _
        simp only [Function.comp_apply]
        push_cast
        ring

theorem mkPairings_mem_nonbye (ps : List (Entry × Entry)) (c : Color) (bn : Int) :
    ∀ p ∈ mkPairings ps c bn, p.isByePairing = false ∧ p.whitePoints = none := by
  induction ps generalizing c bn with
  | nil =>
    intro p hp
    simp [mkPairings] at hp
  | cons q rest ih =>
    intro p hp
    cases q with
    | mk t o =>
      rcases List.mem_cons.mp hp with hhead | htail
      · subst hhead
        constructor <;> (split_ifs <;> rfl)
      · exact ih (flipColor c) (bn + 1) p htail

theorem mkPairings_filter_nonbye (ps : List (Entry × Entry)) (c : Color) (bn : Int) :
    (mkPairings ps c bn).filter (fun q => !q.isByePairing) = mkPairings ps c bn := by
  apply List.filter_eq_self.mpr
  intro p hp
  simp [(mkPairings_mem_nonbye ps c bn p hp).1]

theorem byes_filter_nonbye (l : List Entry) (pts : ℚ) :
    (l.map (fun e => buildOneBye e pts)).filter (fun q => !q.isByePairing) = [] := by
  apply List.filter_eq_nil_iff.mpr
  intro q hq
  obtain ⟨e, _, rfl⟩ := List.mem_map.mp hq
  simp [buildOneBye]

/-! ### `buildPairingsInSection` in closed form -/

theorem buildPairingsInSection_even (sec : SectionRec) (bn : Int)
    (he : (remainingPool sec.players).length % 2 = 0) :
    (buildPairingsInSection sec bn).1.players = sec.players ∧
    (buildPairingsInSection sec bn).1.pairings =
      mkPairings
          (((remainingPool sec.players).take ((remainingPool sec.players).length / 2)).zip
            ((remainingPool sec.players).drop ((remainingPool sec.players).length / 2)))
          Color.black bn
        ++ (sec.players.filter (fun e => round1ByeRequested e.byeRequests)).map
            (fun e => buildOneBye e (mkRat 1 2)) ∧
    (buildPairingsInSection sec bn).2 =
      bn + (((remainingPool sec.players).length / 2 : Nat) : Int) := by
  have hne : ¬ ((remainingPool sec.players).length % 2 = 1) := by omega
  simp only [buildPairingsInSection, if_neg hne]
  rw [pairLoop_eq _ _ _ he]
  simp

theorem buildPairingsInSection_odd (sec : SectionRec) (bn : Int)
    (ho : (remainingPool sec.players).length % 2 = 1) :
    (buildPairingsInSection sec bn).1.players = sec.players ∧
    (buildPairingsInSection sec bn).1.pairings =
      mkPairings
          ((((remainingPool sec.players).dropLast).take
              (((remainingPool sec.players).dropLast).length / 2)).zip
            (((remainingPool sec.players).dropLast).drop
              (((remainingPool sec.players).dropLast).length / 2)))
          Color.black bn
        ++ (sec.players.filter (fun e => round1ByeRequested e.byeRequests)).map
            (fun e => buildOneBye e (mkRat 1 2))
        ++ [buildOneBye ((remainingPool sec.players).getLastD {}) 1] ∧
    (buildPairingsInSection sec bn).2 =
      bn + ((((remainingPool sec.players).dropLast).length / 2 : Nat) : Int) := by
  have he : ((remainingPool sec.players).dropLast).length % 2 = 0 := by
    simp only [List.length_dropLast]
    omega
  simp only [buildPairingsInSection, if_pos ho]
  rw [pairLoop_eq _ _ _ he]
  simp

theorem zip_halves_getD (pool : List Entry) (he : pool.length % 2 = 0) (i : Nat)
    (hi : i < pool.length / 2) :
    ((pool.take (pool.length / 2)).zip (pool.drop (pool.length / 2))).getD i ({}, {}) =
      (pool.getD i {}, pool.getD (pool.length / 2 + i) {}) := by
  have h1 : i < pool.length := by omega
  have h2 : pool.length / 2 + i < pool.length := by omega
  have hlen : i < ((pool.take (pool.length / 2)).zip (pool.drop (pool.length / 2))).length := by
    simp only [List.length_zip, List.length_take, List.length_drop]
    omega
  simp [List.getD, List.getElem?_eq_getElem hlen, List.getElem?_eq_getElem h1,
    List.getElem?_eq_getElem h2, List.getElem_zip, List.getElem_take, List.getElem_drop]

theorem zip_halves_length (pool : List Entry) (he : pool.length % 2 = 0) :
    ((pool.take (pool.length / 2)).zip (pool.drop (pool.length / 2))).length =
      pool.length / 2 := by
  simp only [List.length_zip, List.length_take, List.length_drop]
  omega

theorem buildPairingsInSection_games_even (sec : SectionRec) (bn : Int)
    (he : (remainingPool sec.players).length % 2 = 0) :
    (buildPairingsInSection sec bn).1.pairings.filter (fun q => !q.isByePairing) =
      mkPairings
        (((remainingPool sec.players).take ((remainingPool sec.players).length / 2)).zip
          ((remainingPool sec.players).drop ((remainingPool sec.players).length / 2)))
        Color.black bn := by
  rw [(buildPairingsInSection_even sec bn he).2.1]
  rw [List.filter_append, mkPairings_filter_nonbye, byes_filter_nonbye, List.append_nil]

theorem buildPairingsInSection_games_odd (sec : SectionRec) (bn : Int)
    (ho : (remainingPool sec.players).length % 2 = 1) :
    (buildPairingsInSection sec bn).1.pairings.filter (fun q => !q.isByePairing) =
      mkPairings
        ((((remainingPool sec.players).dropLast).take
            (((remainingPool sec.players).dropLast).length / 2)).zip
          (((remainingPool sec.players).dropLast).drop
            (((remainingPool sec.players).dropLast).length / 2)))
        Color.black bn := by
  rw [(buildPairingsInSection_odd sec bn ho).2.1]
  rw [List.filter_append, List.filter_append, mkPairings_filter_nonbye,
    byes_filter_nonbye, List.append_nil]
  have : List.filter (fun q => !q.isByePairing)
      [buildOneBye ((remainingPool sec.players).getLastD {}) 1] = [] := by
    simp [buildOneBye]
  rw [this, List.append_nil]

/-- The non-bye pairings of one built section carry consecutive board
numbers starting at the incoming counter, and the outgoing counter is the
incoming counter plus their count. -/
theorem buildPairingsInSection_boards (sec : SectionRec) (bn : Int) :
    ((buildPairingsInSection sec bn).1.pairings.filter (fun q => !q.isByePairing)).map
        (fun p => p.boardNumber) =
      (List.range ((buildPairingsInSection sec bn).1.pairings.filter
          (fun q => !q.isByePairing)).length).map (fun i : Nat => bn + (i : Int)) ∧
    (buildPairingsInSection sec bn).2 =
      bn + ((((buildPairingsInSection sec bn).1.pairings.filter
          (fun q => !q.isByePairing)).length : Nat) : Int) := by
  rcases Nat.mod_two_eq_zero_or_one (remainingPool sec.players).length with he | ho
  · rw [buildPairingsInSection_games_even sec bn he, (buildPairingsInSection_even sec bn he).2.2,
      mkPairings_boards, mkPairings_length, zip_halves_length _ he]
    exact ⟨rfl, rfl⟩
  · have he : ((remainingPool sec.players).dropLast).length % 2 = 0 := by
      simp only [List.length_dropLast]
      omega
    rw [buildPairingsInSection_games_odd sec bn ho, (buildPairingsInSection_odd sec bn ho).2.2,
      mkPairings_boards, mkPairings_length, zip_halves_length _ he]
    exact ⟨rfl, rfl⟩

/-- Joining two consecutive integer board ranges. -/
theorem range_map_add (b : Int) (g m : Nat) :
    (List.range g).map (fun i : Nat => b + (i : Int)) ++
      (List.range m).map (fun i : Nat => (b + (g : Int)) + (i : Int)) =
    (List.range (g + m)).map (fun i : Nat => b + (i : Int)) := by
  rw [List.range_add, List.map_append, List.map_map]
  congr 1
  apply List.map_congr_left
  intro i _
  simp only [Function.comp_apply]
  push_cast
  ring

theorem allGames_append (l1 l2 : List (String × SectionRec)) :
    allGames (l1 ++ l2) = allGames l1 ++ allGames l2 := by
  simp [allGames]

/-- Abstract step: extending a board-numbered prefix by one section's games. -/
theorem boards_append_chunk (b0 : Int) (A G : List Pairing) (rL : Nat)
    (hG : G.map (fun p => p.boardNumber) =
      (List.range G.length).map (fun i : Nat => b0 + (i : Int)))
    (hlen : A.length + G.length ≤ rL) :
    (A ++ G).map (fun p => p.boardNumber) ++
      (List.range (rL - (A.length + G.length))).map
        (fun i : Nat => (b0 + (G.length : Int)) + (i : Int)) =
    A.map (fun p => p.boardNumber) ++
      (List.range (rL - A.length)).map (fun i : Nat => b0 + (i : Int)) := by
  rw [List.map_append, List.append_assoc, hG]
  congr 1
  have harr : rL - A.length = G.length + (rL - (A.length + G.length)) := by omega
  rw [harr]
  exact range_map_add b0 G.length _

theorem counter_append_step (b0 : Int) (aL gL rL : Nat) (hlen : aL + gL ≤ rL) :
    (b0 + (gL : Int)) + ((rL - (aL + gL) : Nat) : Int) = b0 + ((rL - aL : Nat) : Int) := by
  have harr : rL - aL = gL + (rL - (aL + gL)) := by omega
  rw [harr]
  push_cast
  ring

/-- Invariant of the `buildSections` fold: the games accumulated so far
carry board numbers `b0, b0+1, ...` continuing from the accumulator. -/
theorem foldl_buildSectionsStep_boards (groups : List (String × List Entry)) :
    ∀ (names : List String) (l0 : List (String × SectionRec)) (b0 : Int),
      (allGames ((names.foldl (buildSectionsStep groups) (l0, b0)).1)).map
          (fun p => p.boardNumber) =
        ((allGames l0).map (fun p => p.boardNumber)) ++
          (List.range ((allGames ((names.foldl (buildSectionsStep groups) (l0, b0)).1)).length
              - (allGames l0).length)).map (fun i : Nat => b0 + (i : Int)) ∧
      (names.foldl (buildSectionsStep groups) (l0, b0)).2 =
        b0 + ((((allGames ((names.foldl (buildSectionsStep groups) (l0, b0)).1)).length
            - (allGames l0).length : Nat)) : Int) ∧
      (allGames l0).length ≤
        (allGames ((names.foldl (buildSectionsStep groups) (l0, b0)).1)).length := by
  intro names
  induction names with
  | nil =>
    intro l0 b0
    simp
  | cons key names ih =>
    intro l0 b0
    simp only [List.foldl_cons]
    obtain ⟨S1, S2, hS⟩ : ∃ S1 S2,
        buildPairingsInSection
          ⟨(match groups.find? (fun kv => kv.1 = key) with
            | some kv => kv.2
            | none => []), []⟩ b0 = (S1, S2) := ⟨_, _, rfl⟩
    have hstep : buildSectionsStep groups (l0, b0) key = (l0 ++ [(key, S1)], S2) := by
      simp only [buildSectionsStep, hS]
    rw [hstep]
    obtain ⟨hG0, hb0⟩ := buildPairingsInSection_boards
      ⟨(match groups.find? (fun kv => kv.1 = key) with
        | some kv => kv.2
        | none => []), []⟩ b0
    rw [hS] at hG0 hb0
    dsimp only at hG0 hb0
    obtain ⟨ih1, ih2, ih3⟩ := ih (l0 ++ [(key, S1)]) S2
    rw [allGames_append] at ih1 ih2 ih3
    have hA1 : allGames [(key, S1)] = S1.pairings.filter (fun q => !q.isByePairing) := by
      simp [allGames]
    rw [hA1] at ih1 ih2 ih3
    simp only [List.length_append] at ih1 ih2 ih3
    refine ⟨?_, ?_, ?_⟩
    · rw [ih1, hb0]
      rw [hb0] at ih3
      exact boards_append_chunk b0 (allGames l0) _ _ hG0 (by omega)
    · rw [ih2, hb0]
      rw [hb0] at ih3
      exact counter_append_step b0 (allGames l0).length _ _ (by omega)
    · omega

/-! ### Bye helpers -/

theorem mkPairings_filter_points (ps : List (Entry × Entry)) (c : Color) (bn : Int)
    (target : ℚ) :
    (mkPairings ps c bn).filter (fun q => decide (q.whitePoints = some target)) = [] := by
  apply List.filter_eq_nil_iff.mpr
  intro q hq
  simp [(mkPairings_mem_nonbye ps c bn q hq).2]

theorem byes_filter_points_self (l : List Entry) (pts : ℚ) :
    (l.map (fun e => buildOneBye e pts)).filter
        (fun q => decide (q.whitePoints = some pts)) =
      l.map (fun e => buildOneBye e pts) := by
  apply List.filter_eq_self.mpr
  intro q hq
  obtain ⟨e, _, rfl⟩ := List.mem_map.mp hq
  simp [buildOneBye]

theorem byes_filter_points_ne (l : List Entry) (pts target : ℚ) (h : pts ≠ target) :
    (l.map (fun e => buildOneBye e pts)).filter
        (fun q => decide (q.whitePoints = some target)) = [] := by
  apply List.filter_eq_nil_iff.mpr
  intro q hq
  obtain ⟨e, _, rfl⟩ := List.mem_map.mp hq
  simp [buildOneBye, h]

theorem getLastD_mem_of_ne_nil : ∀ (l : List Entry) (d : Entry), l ≠ [] → l.getLastD d ∈ l
  | [a], _, _ => by simp [List.getLastD_cons]
  | a :: b :: t, d, _ => by
    rw [List.getLastD_cons]
    exact List.mem_cons_of_mem a (getLastD_mem_of_ne_nil (b :: t) a (by simp))

theorem sorted_getLastD_min : ∀ (l : List Entry) (d : Entry),
    List.Sorted byRatingDesc l →
    ∀ e ∈ l, strRatingToInt ((l.getLastD d).primaryRating) ≤ strRatingToInt e.primaryRating
  | [], _, _, e, he => by simp at he
  | a :: rest, d, hs, e, he => by
    rw [List.getLastD_cons]
    rcases List.mem_cons.mp he with heq | hrest
    · rw [heq]
      cases rest with
      | nil => simp [List.getLastD_nil]
      | cons b t =>
        have hmem : (b :: t).getLastD a ∈ b :: t := getLastD_mem_of_ne_nil _ _ (by simp)
        exact List.rel_of_sorted_cons hs _ hmem
    · cases rest with
      | nil => simp at hrest
      | cons b t => exact sorted_getLastD_min (b :: t) a hs.of_cons e hrest

theorem entryToPlayer_displayName_ne (e : Entry) : (entryToPlayer e).displayName ≠ "" := by
  intro h
  have hd := congrArg String.data h
  simp [entryToPlayer, strCat] at hd

theorem remainingPool_sorted (players : List Entry) :
    List.Sorted byRatingDesc (remainingPool players) :=
  List.sorted_insertionSort byRatingDesc _

/-! ### Claim theorems for the round-1 predictor -/

/-- C4: in every section the predictor builds, an odd remaining pool yields
exactly one full-point (1.0) bye, granted to a pool member of minimal
reported rating (and an even pool yields none); every entrant who requested
a round-1 bye receives a half-point (0.5) bye; and every bye pairing has
board number 0 with only the white side populated. -/
theorem round1_byes (sec : SectionRec) (bn : Int) :
    ((remainingPool sec.players).length % 2 = 1 →
      (buildPairingsInSection sec bn).1.pairings.filter
          (fun q => decide (q.whitePoints = some (1 : ℚ))) =
        [buildOneBye ((remainingPool sec.players).getLastD {}) 1] ∧
      ((remainingPool sec.players).getLastD {}) ∈ remainingPool sec.players ∧
      (∀ e ∈ remainingPool sec.players,
        strRatingToInt (((remainingPool sec.players).getLastD {}).primaryRating) ≤
          strRatingToInt e.primaryRating)) ∧
    ((remainingPool sec.players).length % 2 = 0 →
      (buildPairingsInSection sec bn).1.pairings.filter
          (fun q => decide (q.whitePoints = some (1 : ℚ))) = []) ∧
    ((buildPairingsInSection sec bn).1.pairings.filter
        (fun q => decide (q.whitePoints = some (mkRat 1 2))) =
      (sec.players.filter (fun e => round1ByeRequested e.byeRequests)).map
        (fun e => buildOneBye e (mkRat 1 2))) ∧
    (∀ p ∈ (buildPairingsInSection sec bn).1.pairings, p.isByePairing = true →
      p.boardNumber = 0 ∧ p.blackPlayer = {} ∧ p.whitePlayer.displayName ≠ "") := by
  have hhalf_ne_one : (mkRat 1 2 : ℚ) ≠ 1 := by decide
  have hone_ne_half : (1 : ℚ) ≠ mkRat 1 2 := by decide
  refine ⟨fun ho => ?_, fun hev => ?_, ?_, ?_⟩
  · rw [(buildPairingsInSection_odd sec bn ho).2.1]
    refine ⟨?_, getLastD_mem_of_ne_nil _ _ (by intro h; rw [h] at ho; simp at ho),
      sorted_getLastD_min _ _ (remainingPool_sorted sec.players)⟩
    rw [List.filter_append, List.filter_append, mkPairings_filter_points,
      byes_filter_points_ne _ _ _ hhalf_ne_one]
    simp [buildOneBye]
  · rw [(buildPairingsInSection_even sec bn hev).2.1]
    rw [List.filter_append, mkPairings_filter_points,
      byes_filter_points_ne _ _ _ hhalf_ne_one]
    rfl
  · rcases Nat.mod_two_eq_zero_or_one (remainingPool sec.players).length with hev | ho
    · rw [(buildPairingsInSection_even sec bn hev).2.1]
      rw [List.filter_append, mkPairings_filter_points, byes_filter_points_self]
      rfl
    · rw [(buildPairingsInSection_odd sec bn ho).2.1]
      rw [List.filter_append, List.filter_append, mkPairings_filter_points,
        byes_filter_points_self]
      have : List.filter (fun q => decide (q.whitePoints = some (mkRat 1 2)))
          [buildOneBye ((remainingPool sec.players).getLastD {}) 1] = [] := by
        simp [buildOneBye, hone_ne_half]
      rw [this, List.append_nil, List.nil_append]
  · intro p hp hbye
    have hsplit : p ∈
        (sec.players.filter (fun e => round1ByeRequested e.byeRequests)).map
          (fun e => buildOneBye e (mkRat 1 2)) ∨
        (∃ e, p = buildOneBye e 1) ∨ p.isByePairing = false := by
      rcases Nat.mod_two_eq_zero_or_one (remainingPool sec.players).length with hev | ho
      · rw [(buildPairingsInSection_even sec bn hev).2.1] at hp
        rcases List.mem_append.mp hp with hg | hb
        · exact Or.inr (Or.inr (mkPairings_mem_nonbye _ _ _ p hg).1)
        · exact Or.inl hb
      · rw [(buildPairingsInSection_odd sec bn ho).2.1] at hp
        rcases List.mem_append.mp hp with hgb | hlast
        · rcases List.mem_append.mp hgb with hg | hb
          · exact Or.inr (Or.inr (mkPairings_mem_nonbye _ _ _ p hg).1)
          · exact Or.inl hb
        · refine Or.inr (Or.inl ⟨(remainingPool sec.players).getLastD {}, ?_⟩)
          simpa using hlast
    rcases hsplit with hb | ⟨e, rfl⟩ | hfalse
    · obtain ⟨e, _, rfl⟩ := List.mem_map.mp hb
      exact ⟨rfl, rfl, entryToPlayer_displayName_ne e⟩
    · exact ⟨rfl, rfl, entryToPlayer_displayName_ne e⟩
    · rw [hfalse] at hbye
      cases hbye

theorem round1_byes_witness :
    ((buildPairingsInSection predSectionOdd 1).1.pairings.filter
        (fun q => decide (q.whitePoints = some (1 : ℚ))) =
      [buildOneBye ((remainingPool predSectionOdd.players).getLastD {}) 1] ∧
    ((remainingPool predSectionOdd.players).getLastD {}) ∈
      remainingPool predSectionOdd.players ∧
    (∀ e ∈ remainingPool predSectionOdd.players,
      strRatingToInt (((remainingPool predSectionOdd.players).getLastD {}).primaryRating) ≤
        strRatingToInt e.primaryRating)) ∧
    ((buildPairingsInSection predSectionOdd 1).1.pairings.filter
        (fun q => decide (q.whitePoints = some (mkRat 1 2))) =
      (predSectionOdd.players.filter (fun e => round1ByeRequested e.byeRequests)).map
        (fun e => buildOneBye e (mkRat 1 2))) :=
  ⟨(round1_byes predSectionOdd 1).1 (by decide), (round1_byes predSectionOdd 1).2.2.1⟩

/-- C3: on an even remaining pool sorted descending, the section's non-bye
pairings pair rank `i+1` against rank `n/2+i+1` (as the two sides of board
`i`, in one color order or the other), and across the whole event the
non-bye pairings in section-priority order carry board numbers 1, 2, ...
without restarting per section. -/
theorem round1_pairing_scheme_and_board_numbers :
    (∀ (sec : SectionRec) (bn : Int),
      (remainingPool sec.players).length % 2 = 0 →
      ((buildPairingsInSection sec bn).1.pairings.filter
          (fun q => !q.isByePairing)).length = (remainingPool sec.players).length / 2 ∧
      (∀ i, i < (remainingPool sec.players).length / 2 →
        ((((buildPairingsInSection sec bn).1.pairings.filter
              (fun q => !q.isByePairing)).getD i {}).whitePlayer =
            entryToPlayer ((remainingPool sec.players).getD i {}) ∧
          (((buildPairingsInSection sec bn).1.pairings.filter
              (fun q => !q.isByePairing)).getD i {}).blackPlayer =
            entryToPlayer ((remainingPool sec.players).getD
              ((remainingPool sec.players).length / 2 + i) {})) ∨
        ((((buildPairingsInSection sec bn).1.pairings.filter
              (fun q => !q.isByePairing)).getD i {}).whitePlayer =
            entryToPlayer ((remainingPool sec.players).getD
              ((remainingPool sec.players).length / 2 + i) {}) ∧
          (((buildPairingsInSection sec bn).1.pairings.filter
              (fun q => !q.isByePairing)).getD i {}).blackPlayer =
            entryToPlayer ((remainingPool sec.players).getD i {})))) ∧
    (∀ entries : List Entry,
      (allGames (buildSections entries)).map (fun p => p.boardNumber) =
        (List.range (allGames (buildSections entries)).length).map
          (fun i : Nat => 1 + (i : Int))) := by
  constructor
  · intro sec bn he
    have hgames := buildPairingsInSection_games_even sec bn he
    constructor
    · rw [hgames, mkPairings_length, zip_halves_length _ he]
    · intro i hi
      have hib : i < (((remainingPool sec.players).take
          ((remainingPool sec.players).length / 2)).zip
            ((remainingPool sec.players).drop
              ((remainingPool sec.players).length / 2))).length := by
        rw [zip_halves_length _ he]
        exact hi
      rw [hgames, mkPairings_getD _ _ _ i hib, zip_halves_getD _ he i hi]
      by_cases hcol : colorAt Color.black i = Color.black
      · rw [if_pos hcol]
        exact Or.inl ⟨rfl, rfl⟩
      · rw [if_neg hcol]
        exact Or.inr ⟨rfl, rfl⟩
  · intro entries
    obtain ⟨h1, _, _⟩ := foldl_buildSectionsStep_boards (groupBySection entries)
      (List.insertionSort (fun a b => sectionLess a b = true)
        ((groupBySection entries).map (·.1))) [] 1
    simpa [buildSections, allGames] using h1

theorem round1_pairing_scheme_witness :
    (((buildPairingsInSection predSection4 1).1.pairings.filter
        (fun q => !q.isByePairing)).length =
      (remainingPool predSection4.players).length / 2) ∧
    (((((buildPairingsInSection predSection4 1).1.pairings.filter
            (fun q => !q.isByePairing)).getD 0 {}).whitePlayer =
        entryToPlayer ((remainingPool predSection4.players).getD 0 {}) ∧
      (((buildPairingsInSection predSection4 1).1.pairings.filter
            (fun q => !q.isByePairing)).getD 0 {}).blackPlayer =
        entryToPlayer ((remainingPool predSection4.players).getD
          ((remainingPool predSection4.players).length / 2 + 0) {})) ∨
     ((((buildPairingsInSection predSection4 1).1.pairings.filter
            (fun q => !q.isByePairing)).getD 0 {}).whitePlayer =
        entryToPlayer ((remainingPool predSection4.players).getD
          ((remainingPool predSection4.players).length / 2 + 0) {}) ∧
      (((buildPairingsInSection predSection4 1).1.pairings.filter
            (fun q => !q.isByePairing)).getD 0 {}).blackPlayer =
        entryToPlayer ((remainingPool predSection4.players).getD 0 {}))) ∧
    ((allGames (buildSections predEntries4)).map (fun p => p.boardNumber) =
      (List.range (allGames (buildSections predEntries4)).length).map
        (fun i : Nat => 1 + (i : Int))) :=
  ⟨(round1_pairing_scheme_and_board_numbers.1 predSection4 1 (by decide)).1,
   (round1_pairing_scheme_and_board_numbers.1 predSection4 1 (by decide)).2 0 (by decide),
   round1_pairing_scheme_and_board_numbers.2 predEntries4⟩

/-- C2 counterexample: in the 4-player section rated 2000/1800/1600/1400,
the very first pairing gives white to the TOP-half player (rank 1, rated
2000) and black to the bottom-half player (rank 3, rated 1600) — not white
to the bottom-half player as claimed. -/
theorem round1_first_pairing_color_counterexample :
    remainingPool predSection4.players = [predE1, predE2, predE3, predE4] ∧
    ((buildPairingsInSection predSection4 1).1.pairings.getD 0 {}).whitePlayer =
      entryToPlayer predE1 ∧
    ((buildPairingsInSection predSection4 1).1.pairings.getD 0 {}).blackPlayer =
      entryToPlayer predE3 ∧
    ((buildPairingsInSection predSection4 1).1.pairings.getD 0 {}).whitePlayer.primaryRating
      = 2000 ∧
    ((buildPairingsInSection predSection4 1).1.pairings.getD 0 {}).blackPlayer.primaryRating
      = 1600 := by
  decide

/-- C2 amended: in every section, which side receives white alternates
between consecutive pairings, and the very FIRST pairing of a section gives
white to the TOP-half player (so even-indexed boards give white to the
top-half side, odd-indexed boards to the bottom-half side). -/
theorem round1_color_alternation_amended (sec : SectionRec) (bn : Int) (p : List Entry)
    (hp : p = (if (remainingPool sec.players).length % 2 = 1
        then (remainingPool sec.players).dropLast else remainingPool sec.players)) :
    ∀ i, i < p.length / 2 →
      (i % 2 = 0 →
        (((buildPairingsInSection sec bn).1.pairings.filter
            (fun q => !q.isByePairing)).getD i {}).whitePlayer =
          entryToPlayer (p.getD i {}) ∧
        (((buildPairingsInSection sec bn).1.pairings.filter
            (fun q => !q.isByePairing)).getD i {}).blackPlayer =
          entryToPlayer (p.getD (p.length / 2 + i) {})) ∧
      (i % 2 = 1 →
        (((buildPairingsInSection sec bn).1.pairings.filter
            (fun q => !q.isByePairing)).getD i {}).whitePlayer =
          entryToPlayer (p.getD (p.length / 2 + i) {}) ∧
        (((buildPairingsInSection sec bn).1.pairings.filter
            (fun q => !q.isByePairing)).getD i {}).blackPlayer =
          entryToPlayer (p.getD i {})) := by
  intro i hi
  have hpe : p.length % 2 = 0 := by
    rcases Nat.mod_two_eq_zero_or_one (remainingPool sec.players).length with hev | ho
    · rw [hp, if_neg (by omega)]
      exact hev
    · rw [hp, if_pos ho]
      simp only [List.length_dropLast]
      omega
  have hfilter : (buildPairingsInSection sec bn).1.pairings.filter
      (fun q => !q.isByePairing) =
      mkPairings ((p.take (p.length / 2)).zip (p.drop (p.length / 2))) Color.black bn := by
    rcases Nat.mod_two_eq_zero_or_one (remainingPool sec.players).length with hev | ho
    · rw [hp, if_neg (by omega)]
      exact buildPairingsInSection_games_even sec bn hev
    · rw [hp, if_pos ho]
      exact buildPairingsInSection_games_odd sec bn ho
  have hib : i < ((p.take (p.length / 2)).zip (p.drop (p.length / 2))).length := by
    rw [zip_halves_length _ hpe]
    exact hi
  constructor
  · intro hev2
    have hcol : colorAt Color.black i = Color.black := by
      simp [colorAt, hev2]
    rw [hfilter, mkPairings_getD _ _ _ i hib, zip_halves_getD _ hpe i hi, if_pos hcol]
    exact ⟨rfl, rfl⟩
  · intro hodd2
    have hcol : ¬ (colorAt Color.black i = Color.black) := by
      simp [colorAt, hodd2, flipColor]
    rw [hfilter, mkPairings_getD _ _ _ i hib, zip_halves_getD _ hpe i hi, if_neg hcol]
    exact ⟨rfl, rfl⟩

theorem round1_color_alternation_witness :
    ((((buildPairingsInSection predSection4 1).1.pairings.filter
          (fun q => !q.isByePairing)).getD 0 {}).whitePlayer =
        entryToPlayer ([predE1, predE2, predE3, predE4].getD 0 {}) ∧
      (((buildPairingsInSection predSection4 1).1.pairings.filter
          (fun q => !q.isByePairing)).getD 0 {}).blackPlayer =
        entryToPlayer ([predE1, predE2, predE3, predE4].getD
          ([predE1, predE2, predE3, predE4].length / 2 + 0) {})) ∧
    ((((buildPairingsInSection predSection4 1).1.pairings.filter
          (fun q => !q.isByePairing)).getD 1 {}).whitePlayer =
        entryToPlayer ([predE1, predE2, predE3, predE4].getD
          ([predE1, predE2, predE3, predE4].length / 2 + 1) {}) ∧
      (((buildPairingsInSection predSection4 1).1.pairings.filter
          (fun q => !q.isByePairing)).getD 1 {}).blackPlayer =
        entryToPlayer ([predE1, predE2, predE3, predE4].getD 1 {})) :=
  ⟨(round1_color_alternation_amended predSection4 1 [predE1, predE2, predE3, predE4]
      (by decide) 0 (by decide)).1 rfl,
   (round1_color_alternation_amended predSection4 1 [predE1, predE2, predE3, predE4]
      (by decide) 1 (by decide)).2 rfl⟩

/-! ### Claim theorems for the website parser error policy -/

/-- C6 counterexample: a document with no entries table and a document with
no pairings table both make their sub-parse return a `nil` error (the claim
demands a hard error). `parsePlayers` and `parsePairings` return `nil` on
every input. -/
theorem parser_missing_table_counterexample :
    (parsePlayers { memberRows := [] } {}).2 = none ∧
    (parsePairings { headings := [], h3s := [] } {}).2 = none :=
  ⟨rfl, rfl⟩

/-- C6 amended: neither sub-parse ever returns an error — a missing entries
or pairings table yields an empty list with a `nil` error — while an
individual malformed row (too few cells) is still skipped without aborting
the remaining rows. -/
theorem parser_error_policy_amended :
    (∀ (d : EntriesDoc) (t : Tournament), (parsePlayers d t).2 = none) ∧
    (∀ (d : PairingsDoc) (t : Tournament), (parsePairings d t).2 = none) ∧
    (∀ (pre post : List (List String)) (bad : List String) (t : Tournament),
      bad.length < 4 →
      (parsePlayers { memberRows := pre ++ bad :: post } t).1.players =
        (parsePlayers { memberRows := pre ++ post } t).1.players) ∧
    (∀ (pre post : List (List String)) (bad : List String) (sn : String)
        (t : Tournament),
      bad.length < 5 →
      parsePairingRows (pre ++ bad :: post) sn t = parsePairingRows (pre ++ post) sn t) := by
  refine ⟨fun d t => rfl, fun d t => rfl, ?_, ?_⟩
  · intro pre post bad t hbad
    have hnone : parsePlayerRow? bad = none := by
      simp only [parsePlayerRow?, if_pos hbad]
    simp [parsePlayers, List.filterMap_append, List.filterMap_cons, hnone]
  · intro pre post bad sn t hbad
    have hnone : parsePairingRow? bad sn = none := by
      simp only [parsePairingRow?, if_pos hbad]
    simp [parsePairingRows, List.filterMap_append, List.filterMap_cons, hnone]

theorem parser_error_policy_witness :
    ((parsePlayers { memberRows := [["1", "John Doe", "1500", "123"]] ++
        ["short"] :: [] } {}).1.players =
      (parsePlayers { memberRows := [["1", "John Doe", "1500", "123"]] ++ [] } {}).1.players) ∧
    (parsePairingRows ([] ++ ["short"] ::
        [["1", "", "1 A B (2000 1.0)", "", "2 C D (1800 1.0)"]]) "Open" {} =
      parsePairingRows ([] ++ [["1", "", "1 A B (2000 1.0)", "", "2 C D (1800 1.0)"]])
        "Open" {}) :=
  ⟨parser_error_policy_amended.2.2.1 [["1", "John Doe", "1500", "123"]] [] ["short"] {}
     (by decide),
   parser_error_policy_amended.2.2.2 []
     [["1", "", "1 A B (2000 1.0)", "", "2 C D (1800 1.0)"]] ["short"] "Open" {}
     (by decide)⟩

/-! ### Claim theorems for the rating estimator -/

theorem regRatingsOf_none (opponents : List USPlayer)
    (h : ∃ o ∈ opponents, regRatingFloat o = none) :
    regRatingsOf opponents = none := by
  induction opponents with
  | nil => simp at h
  | cons a rest ih =>
    obtain ⟨o, ho, hno⟩ := h
    rcases List.mem_cons.mp ho with heq | hmem
    · rw [heq] at hno
      simp [regRatingsOf, hno]
    · have hrest := ih ⟨o, hmem, hno⟩
      simp only [regRatingsOf, hrest]
      cases regRatingFloat a <;> rfl

/-- C8: the estimator pipeline errors (with numeric result 0) whenever the
player or any opponent is unrated (`"<unrated>"`) or has an unparseable
rating string; and with a rated, parseable player and an empty opponent
list it returns the player's own reg rating unchanged, with no error. -/
theorem rating_estimator_unrated_and_empty (sqrtFn pow10 : ℚ → ℚ)
    (player : USPlayer) (opponents : List USPlayer) (score : ℚ) :
    ((isUnrated player = true ∨
      parseRatingWithProvisionalGames player.regRating = none ∨
      (∃ o ∈ opponents, isUnrated o = true ∨
        parseRatingWithProvisionalGames o.regRating = none)) →
      (GetRatingEstimate sqrtFn pow10 player opponents score).1 = 0 ∧
      (GetRatingEstimate sqrtFn pow10 player opponents score).2 ≠ none) ∧
    (∀ base rest, parseRatingWithProvisionalGames player.regRating = some (base, rest) →
      isUnrated player = false →
      GetRatingEstimate sqrtFn pow10 player [] score = (mkRat base 1, none)) := by
  constructor
  · intro hbad
    by_cases hu : (isUnrated player = true ∨
        opponents.any (fun o => isUnrated o) = true)
    · simp only [GetRatingEstimate, if_pos hu]
      exact ⟨by simp, by simp⟩
    · rcases hbad with hpu | hpp | ⟨o, ho, hou | hop⟩
      · exact absurd (Or.inl hpu) hu
      · simp only [GetRatingEstimate, if_neg hu]
        have hrf : regRatingFloat player = none := by
          simp [regRatingFloat, hpp]
        rw [hrf]
        exact ⟨by simp, by simp⟩
      · exact absurd (Or.inr (List.any_eq_true.mpr ⟨o, ho, by simp [hou]⟩)) hu
      · simp only [GetRatingEstimate, if_neg hu]
        cases hrp : regRatingFloat player with
        | none => exact ⟨by simp, by simp⟩
        | some myOld =>
          have hm : regRatingsOf opponents = none :=
            regRatingsOf_none opponents ⟨o, ho, by simp [regRatingFloat, hop]⟩
          rw [hm]
          exact ⟨by simp, by simp⟩
  · intro base rest hparse hpu
    have hcond : ¬ (isUnrated player = true ∨
        List.any [] (fun o => isUnrated o) = true) := by
      simp [hpu]
    simp only [GetRatingEstimate, if_neg hcond]
    have hrf : regRatingFloat player = some (mkRat base 1) := by
      simp [regRatingFloat, hparse]
    rw [hrf]
    rfl

theorem rating_estimator_unrated_and_empty_witness :
    ((GetRatingEstimate id id { regRating := "<unrated>" } [] 2).1 = 0 ∧
     (GetRatingEstimate id id { regRating := "<unrated>" } [] 2).2 ≠ none) ∧
    ((GetRatingEstimate id id { regRating := "1400" }
        [{ regRating := "<unrated>" }] 2).1 = 0 ∧
     (GetRatingEstimate id id { regRating := "1400" }
        [{ regRating := "<unrated>" }] 2).2 ≠ none) ∧
    GetRatingEstimate id id { regRating := "1400P5" } [] 2 = (mkRat 1400 1, none) :=
  ⟨(rating_estimator_unrated_and_empty id id { regRating := "<unrated>" } [] 2).1
     (Or.inl (by decide)),
   (rating_estimator_unrated_and_empty id id { regRating := "1400" }
       [{ regRating := "<unrated>" }] 2).1
     (Or.inr (Or.inr ⟨{ regRating := "<unrated>" }, by decide, Or.inl (by decide)⟩)),
   (rating_estimator_unrated_and_empty id id { regRating := "1400P5" } [] 2).2
     1400 (5, true) (by decide) (by decide)⟩

theorem clampSpecial_mem (out : ℚ) :
    100 ≤ clampSpecial out ∧ clampSpecial out ≤ 2700 := by
  unfold clampSpecial
  by_cases h1 : out < 100
  · rw [if_pos h1]
    norm_num
  · rw [if_neg h1]
    by_cases h2 : 2700 < out
    · rw [if_pos h2]
      norm_num
    · rw [if_neg h2]
      exact ⟨le_of_not_lt h1, le_of_not_lt h2⟩

/-- C9: every provisional-branch call (priorGames ≤ 8, nonempty opponents)
returns without error a value clamped into [100, 2700]; in particular no
distinct non-convergence error exists — the final midpoint is clamped and
returned whatever the bisection did. -/
theorem provisional_estimate_in_range (sqrtFn pow10 : ℚ → ℚ) (myOldRating : ℚ)
    (priorGames : Int) (score : ℚ) (opponentRatings : List ℚ) (dualRatedOTBR : Bool)
    (h8 : priorGames ≤ 8) (hne : opponentRatings ≠ []) :
    (getRatingEstimate sqrtFn pow10 myOldRating priorGames score opponentRatings
      dualRatedOTBR).2 = none ∧
    100 ≤ (getRatingEstimate sqrtFn pow10 myOldRating priorGames score opponentRatings
      dualRatedOTBR).1 ∧
    (getRatingEstimate sqrtFn pow10 myOldRating priorGames score opponentRatings
      dualRatedOTBR).1 ≤ 2700 := by
  have hn : ¬ (opponentRatings.length = 0) := by
    simp [hne]
  simp only [getRatingEstimate, if_neg hn, if_pos h8]
  refine ⟨by simp, ?_, ?_⟩
  · simp only [specialRatingEstimate]
    exact (clampSpecial_mem _).1
  · simp only [specialRatingEstimate]
    exact (clampSpecial_mem _).2

theorem provisional_estimate_in_range_witness :
    (getRatingEstimate id id 1500 7 2 [1500, 1500, 1500, 1500] false).2 = none ∧
    100 ≤ (getRatingEstimate id id 1500 7 2 [1500, 1500, 1500, 1500] false).1 ∧
    (getRatingEstimate id id 1500 7 2 [1500, 1500, 1500, 1500] false).1 ≤ 2700 :=
  provisional_estimate_in_range id id 1500 7 2 [1500, 1500, 1500, 1500] false
    (by decide) (by decide)

end TDBot

